import Mathlib

/-!
Shallow embedding of the room / long-poll subsystem of `src/server.js`
(the in-memory room registry, client sessions, event broadcaster,
long-poll gateway and the periodic cleanup sweep).

JavaScript `Map`s are modelled as insertion-ordered association lists
(`JMap`), matching `Map` iteration order.  `Math.random`-driven choices
(`makeRoomCode`) take an injected digit stream.  `Date.now()` is an
explicit `now : Nat` argument.  An HTTP response sent to a *parked*
long-poll (`pending.res.json({events})`) is modelled as an entry
`(token, events)` in a `flushed` log returned by each operation, where
`token` identifies the parked request; a parked poll that is removed
without any log entry was dropped unanswered.
-/

/-- Insertion-ordered association list standing for a JavaScript `Map`. -/
abbrev JMap (α : Type) := List (String × α)

/-- `Map.get`: first binding of the key, if any. -/
def jget {α : Type} (k : String) : JMap α → Option α
  | [] => none
  | (k', v) :: rest => if k' = k then some v else jget k rest

/-- `Map.set`: replace the binding in place if the key exists, else append
(JS `Map` keeps the original insertion position on overwrite). -/
def jset {α : Type} (k : String) (v : α) : JMap α → JMap α
  | [] => [(k, v)]
  | (k', v') :: rest => if k' = k then (k, v) :: rest else (k', v') :: jset k v rest

/-- `Map.delete`: remove the binding of the key, if any. -/
def jdel {α : Type} (k : String) : JMap α → JMap α
  | [] => []
  | (k', v') :: rest => if k' = k then rest else (k', v') :: jdel k rest

/-- The keys of a map, in insertion order. -/
def jkeys {α : Type} (m : JMap α) : List String := m.map Prod.fst

/-- `const MAX_MSG_CHARS = 1000`. -/
def MAX_MSG_CHARS : Nat := 1000

/-- `const POLL_TIMEOUT_MS = 30000`. -/
def POLL_TIMEOUT_MS : Nat := 30000

/-- `const CLIENT_TIMEOUT_MS = 60000`. -/
def CLIENT_TIMEOUT_MS : Nat := 60000

/-- The events the server queues for clients (`hello`, `created`, `joined`,
`presence`, `msg` objects of `server.js`). -/
inductive Event : Type where
  | hello (clientId : String)
  | created (room : String) (clientId : String)
  | joined (room : String) (clientId : String)
  | presence (room : String) (users : List (String × String)) (count : Nat)
  | msg (room : String) (fromId : String) (fromName : String) (text : String) (ts : Nat)
deriving DecidableEq, Repr

/-- One member entry of a room: `{ name, lastSeen, events: [] }`. -/
structure ClientState : Type where
  name : String
  lastSeen : Nat
  events : List Event
deriving DecidableEq, Repr

/-- A room: `{ clients: Map<clientId, ClientState>, createdAt }`. -/
structure Room : Type where
  clients : JMap ClientState
  createdAt : Nat
deriving DecidableEq, Repr

/-- The whole mutable server state: `rooms`, `pendingPolls` (client id →
token of the parked request) and `clientRooms` (client id → room code). -/
structure ServerState : Type where
  rooms : JMap Room
  pendingPolls : JMap Nat
  clientRooms : JMap String
deriving DecidableEq, Repr

/-- The whitespace characters relevant to JS `String.prototype.trim` here. -/
def isJsSpace (c : Char) : Bool :=
  c = ' ' || c = '\t' || c = '\n' || c = '\r' || c = '\x0b' || c = '\x0c'

/-- JS `s.trim()`: drop whitespace from both ends (structurally, over the
character list, so that concrete runs compute). -/
def jsTrim (s : String) : String :=
  String.mk (((s.data.dropWhile isJsSpace).reverse.dropWhile isJsSpace).reverse)

/-- `safeText`: `''` for a missing / non-string value, else trim, treat
all-whitespace as empty, and cap at `MAX_MSG_CHARS` (`.slice(0, 1000)`). -/
def safeText (s : Option String) : String :=
  match s with
  | none => ""
  | some str =>
    let trimmed := jsTrim str
    if trimmed = "" then "" else String.mk (trimmed.data.take MAX_MSG_CHARS)

/-- The digit character `String(d)` for a digit `d < 10`. -/
def digitChar (d : Nat) : Char := Char.ofNat (48 + d % 10)

/-- `makeRoomCode` for attempt `i`, drawing five digits from the injected
random stream `rng` (each draw is `Math.floor(Math.random()*10)`). -/
def makeRoomCode (rng : Nat → Nat) (i : Nat) : String :=
  String.mk [digitChar (rng (5 * i)), digitChar (rng (5 * i + 1)),
             digitChar (rng (5 * i + 2)), digitChar (rng (5 * i + 3)),
             digitChar (rng (5 * i + 4))]

/-- The regular expression test `/^[0-9]{5}$/.test(code)`. -/
def fiveDigitCode (s : String) : Bool :=
  s.data.length == 5 && s.data.all Char.isDigit

/-- The retry loop of `createRoom` (attempt index `i`, remaining fuel):
generate a code, take it if free, else retry; `'Could not create room'`
after the attempts run out. -/
def createRoomLoop (rng : Nat → Nat) (now : Nat) (rooms : JMap Room) :
    Nat → Nat → Except String (String × JMap Room)
  | _, 0 => .error "Could not create room"
  | i, fuel + 1 =>
    let code := makeRoomCode rng i
    if (jget code rooms).isSome then createRoomLoop rng now rooms (i + 1) fuel
    else .ok (code, jset code ⟨[], now⟩ rooms)

/-- `createRoom(roomCodeRequested = '')`: a supplied code must be five
digits and unused; an omitted (empty) code is drawn at random with up to
10000 attempts. -/
def createRoom (rng : Nat → Nat) (now : Nat) (requested : String)
    (rooms : JMap Room) : Except String (String × JMap Room) :=
  if requested ≠ "" then
    if requested.length ≠ 5 ∨ fiveDigitCode requested = false then
      .error "Room code must be 5 digits."
    else if (jget requested rooms).isSome then
      .error "Room code already in use."
    else .ok (requested, jset requested ⟨[], now⟩ rooms)
  else createRoomLoop rng now rooms 0 10000

/-- The `{room, users, count}` object of `roomSnapshot`. -/
structure Snapshot : Type where
  room : String
  users : List (String × String)
  count : Nat
deriving DecidableEq, Repr

/-- `roomSnapshot(roomCode)`: `null` for an unknown room, else the member
`(id, name)` pairs in insertion order with their count. -/
def roomSnapshot (roomCode : String) (rooms : JMap Room) : Option Snapshot :=
  match jget roomCode rooms with
  | none => none
  | some room =>
    let users := room.clients.map (fun p => (p.1, p.2.name))
    some ⟨roomCode, users, users.length⟩

/-- `client.events.push(event)` for one member of one room (no-op when the
room or the member is unknown, mirroring the lookups in the source). -/
def pushToClient (roomCode clientId : String) (ev : Event) (st : ServerState) :
    ServerState :=
  match jget roomCode st.rooms with
  | none => st
  | some room =>
    match jget clientId room.clients with
    | none => st
    | some c =>
      let c1 : ClientState := { c with events := c.events ++ [ev] }
      let room1 : Room := { room with clients := jset clientId c1 room.clients }
      { st with rooms := jset roomCode room1 st.rooms }

/-- The room scan inside `flushClient`: the first room whose member
`clientId` has a non-empty queue, together with the drained events and the
room with that queue emptied (`splice(0)`). -/
def flushScan (clientId : String) : JMap Room → Option (String × Room × List Event)
  | [] => none
  | (rc, room) :: rest =>
    match jget clientId room.clients with
    | some c =>
      if c.events ≠ [] then
        some (rc, { room with clients := jset clientId { c with events := [] } room.clients }, c.events)
      else flushScan clientId rest
    | none => flushScan clientId rest

/-- `flushClient(clientId)`: if the client has a parked poll and pending
events, answer the parked request with the drained events and drop the
registration. -/
def flushClient (clientId : String) (st : ServerState) :
    List (Nat × List Event) × ServerState :=
  match jget clientId st.pendingPolls with
  | none => ([], st)
  | some tok =>
    match flushScan clientId st.rooms with
    | none => ([], st)
    | some (rc, room', evs) =>
      ([(tok, evs)],
       { st with rooms := jset rc room' st.rooms,
                 pendingPolls := jdel clientId st.pendingPolls })

/-- The member loop of `broadcast`: push the event to each listed member in
turn, flushing after each push. -/
def broadcastLoop (roomCode : String) (ev : Event) :
    List String → ServerState → List (Nat × List Event) × ServerState
  | [], st => ([], st)
  | id :: rest, st =>
    let st1 := pushToClient roomCode id ev st
    let (rs, st2) := flushClient id st1
    let (rs', st3) := broadcastLoop roomCode ev rest st2
    (rs ++ rs', st3)

/-- `broadcast(roomCode, event)`: append the event to every current
member's queue (iterating the member list as it stood at entry) and flush
each member. -/
def broadcast (roomCode : String) (ev : Event) (st : ServerState) :
    List (Nat × List Event) × ServerState :=
  match jget roomCode st.rooms with
  | none => ([], st)
  | some room => broadcastLoop roomCode ev (jkeys room.clients) st

/-- The JSON answer of one gateway endpoint. -/
inductive ApiResult : Type where
  | okRoom (clientId : String) (room : String) (users : List (String × String)) (count : Nat)
  | okTrue
  | events (evs : List Event)
  | parked (token : Nat)
  | error (status : Nat) (msg : String)
deriving DecidableEq, Repr

/-- What one request produces: its own JSON answer, the answers sent to
previously parked polls while handling it, and the new state. -/
structure HandlerOut : Type where
  result : ApiResult
  flushed : List (Nat × List Event)
  state : ServerState
deriving DecidableEq, Repr

/-- `safeText(x) || 'User'`. -/
def nameOrUser (nameField : Option String) : String :=
  if safeText nameField = "" then "User" else safeText nameField

/-- `POST /api/room/create`: allocate the room, register the creator,
queue `hello`, `created` and an initial `presence` for them, and answer
with the snapshot.  `clientId` is the injected `randId(10)` value. -/
def apiCreate (rng : Nat → Nat) (now : Nat) (clientId : String)
    (nameField roomField : Option String) (st : ServerState) : HandlerOut :=
  let name := nameOrUser nameField
  let requested := safeText roomField
  match createRoom rng now requested st.rooms with
  | .error e => ⟨.error 400 e, [], st⟩
  | .ok (roomCode, rooms1) =>
    match jget roomCode rooms1 with
    | none => ⟨.error 400 "Could not create room", [], st⟩
    | some room =>
      let rooms2 := jset roomCode
        { room with clients := jset clientId ⟨name, now, []⟩ room.clients } rooms1
      let st1 : ServerState :=
        { st with rooms := rooms2, clientRooms := jset clientId roomCode st.clientRooms }
      let st2 := pushToClient roomCode clientId (.hello clientId) st1
      let st3 := pushToClient roomCode clientId (.created roomCode clientId) st2
      match roomSnapshot roomCode st3.rooms with
      | none => ⟨.error 400 "Could not create room", [], st3⟩
      | some snap =>
        let st4 := pushToClient roomCode clientId (.presence snap.room snap.users snap.count) st3
        ⟨.okRoom clientId roomCode snap.users snap.count, [], st4⟩

/-- `POST /api/room/join`: validate the code, register the joiner, queue
`hello` + `joined` for them, broadcast a fresh `presence` to the whole
room, and answer with the same snapshot. -/
def apiJoin (now : Nat) (clientId : String) (nameField roomField : Option String)
    (st : ServerState) : HandlerOut :=
  let roomCode := safeText roomField
  if roomCode = "" ∨ roomCode.length ≠ 5 ∨ fiveDigitCode roomCode = false then
    ⟨.error 400 "Room code must be 5 digits.", [], st⟩
  else
    match jget roomCode st.rooms with
    | none => ⟨.error 404 "Room not found.", [], st⟩
    | some room =>
      let name := nameOrUser nameField
      let rooms2 := jset roomCode
        { room with clients := jset clientId ⟨name, now, []⟩ room.clients } st.rooms
      let st1 : ServerState :=
        { st with rooms := rooms2, clientRooms := jset clientId roomCode st.clientRooms }
      let st2 := pushToClient roomCode clientId (.hello clientId) st1
      let st3 := pushToClient roomCode clientId (.joined roomCode clientId) st2
      match roomSnapshot roomCode st3.rooms with
      | none => ⟨.error 404 "Room not found.", [], st3⟩
      | some snap =>
        let (rs, st4) := broadcast roomCode (.presence snap.room snap.users snap.count) st3
        ⟨.okRoom clientId roomCode snap.users snap.count, rs, st4⟩

/-- `POST /api/room/leave`: when the client is known and its room exists,
remove it from the room and the session table, discard any parked poll
registration (clearing its timer, sending no answer), then either
broadcast the updated `presence` or delete the now-empty room; always
answers `{ok:true}`. -/
def apiLeave (clientId : String) (st : ServerState) : HandlerOut :=
  match jget clientId st.clientRooms with
  | none => ⟨.okTrue, [], st⟩
  | some roomCode =>
    match jget roomCode st.rooms with
    | none => ⟨.okTrue, [], st⟩
    | some room =>
      let room1 : Room := { room with clients := jdel clientId room.clients }
      let st1 : ServerState :=
        { st with rooms := jset roomCode room1 st.rooms,
                  clientRooms := jdel clientId st.clientRooms,
                  pendingPolls := jdel clientId st.pendingPolls }
      if room1.clients.isEmpty then
        ⟨.okTrue, [], { st1 with rooms := jdel roomCode st1.rooms }⟩
      else
        match roomSnapshot roomCode st1.rooms with
        | none => ⟨.okTrue, [], st1⟩
        | some snap =>
          let (rs, st2) := broadcast roomCode (.presence snap.room snap.users snap.count) st1
          ⟨.okTrue, rs, st2⟩

/-- `POST /api/room/send`: reject empty sanitized text with
`'No text provided.'`, reject a roomless or unknown client, else broadcast
one `msg` event carrying `Date.now()` and the sender's stored name. -/
def apiSend (now : Nat) (clientId : String) (textField : Option String)
    (st : ServerState) : HandlerOut :=
  let text := safeText textField
  if text = "" then ⟨.error 400 "No text provided.", [], st⟩
  else
    match jget clientId st.clientRooms with
    | none => ⟨.error 400 "Not in a room.", [], st⟩
    | some roomCode =>
      match jget roomCode st.rooms with
      | none => ⟨.error 400 "Not in a room.", [], st⟩
      | some room =>
        match jget clientId room.clients with
        | none => ⟨.error 400 "Client not found.", [], st⟩
        | some c =>
          let payload : Event := .msg roomCode clientId c.name text now
          let (rs, st1) := broadcast roomCode payload st
          ⟨.okTrue, rs, st1⟩

/-- `GET /api/room/poll`: reject a roomless or unknown client, refresh
`lastSeen`, drain a non-empty queue immediately, else park the request
(`token` is the fresh parked request's identity), answering any previously
parked poll of the same client with an empty event list first. -/
def apiPoll (now : Nat) (token : Nat) (clientId : String) (st : ServerState) :
    HandlerOut :=
  match jget clientId st.clientRooms with
  | none => ⟨.error 400 "Not in a room.", [], st⟩
  | some roomCode =>
    match jget roomCode st.rooms with
    | none => ⟨.error 400 "Not in a room.", [], st⟩
    | some room =>
      match jget clientId room.clients with
      | none => ⟨.error 400 "Client not found.", [], st⟩
      | some c =>
        let room1 : Room :=
          { room with clients := jset clientId { c with lastSeen := now } room.clients }
        let st1 : ServerState := { st with rooms := jset roomCode room1 st.rooms }
        if c.events ≠ [] then
          let room2 : Room :=
            { room with clients := jset clientId { c with lastSeen := now, events := [] } room.clients }
          ⟨.events c.events, [], { st with rooms := jset roomCode room2 st.rooms }⟩
        else
          let freed := match jget clientId st1.pendingPolls with
            | some oldTok => [(oldTok, ([] : List Event))]
            | none => []
          ⟨.parked token, freed,
           { st1 with pendingPolls := jset clientId token st1.pendingPolls }⟩

/-- The per-room body of `cleanup`: delete members whose `lastSeen` is
older than `CLIENT_TIMEOUT_MS` (discarding their parked-poll registrations
unanswered), then broadcast `presence` whenever the room is non-empty, and
delete the room when it is empty. -/
def cleanupRoom (now : Nat) (roomCode : String) (st : ServerState) :
    List (Nat × List Event) × ServerState :=
  match jget roomCode st.rooms with
  | none => ([], st)
  | some room =>
    let stale := room.clients.filter (fun p => now - p.2.lastSeen > CLIENT_TIMEOUT_MS)
    let survivors := room.clients.filter (fun p => ¬ (now - p.2.lastSeen > CLIENT_TIMEOUT_MS))
    let pending1 := (stale.map Prod.fst).foldl (fun pp id => jdel id pp) st.pendingPolls
    let st1 : ServerState :=
      { st with rooms := jset roomCode { room with clients := survivors } st.rooms,
                pendingPolls := pending1 }
    let (rs, st2) :=
      if survivors.isEmpty = false then
        match roomSnapshot roomCode st1.rooms with
        | some snap => broadcast roomCode (.presence snap.room snap.users snap.count) st1
        | none => ([], st1)
      else ([], st1)
    if survivors.isEmpty then (rs, { st2 with rooms := jdel roomCode st2.rooms })
    else (rs, st2)

/-- `cleanup()`: run the per-room sweep over every room (iterating the
room list as it stood at entry). -/
def cleanup (now : Nat) (st : ServerState) : List (Nat × List Event) × ServerState :=
  (jkeys st.rooms).foldl
    (fun acc rc =>
      let (rs, st1) := cleanupRoom now rc acc.2
      (acc.1 ++ rs, st1))
    ([], st)

/-- A map has well-formed (JavaScript-`Map`-like) keys: no duplicates. -/
def nodupKeys {α : Type} (m : JMap α) : Prop := (jkeys m).Nodup

/-- Well-formed server state: every map has unique keys, as real `Map`s do. -/
def wfState (st : ServerState) : Prop :=
  nodupKeys st.rooms ∧ nodupKeys st.clientRooms ∧ nodupKeys st.pendingPolls ∧
    ∀ p ∈ st.rooms, nodupKeys p.2.clients

/-- Appending one event to a member's queue (the effect of one
`client.events.push(event)`). -/
def pushEv (ev : Event) (c : ClientState) : ClientState :=
  { c with events := c.events ++ [ev] }

/-- Pushing one event onto the queues of a listed set of members of one
member map, in order (the queue-level effect of `broadcast`'s loop). -/
def pushAll (ev : Event) (ids : List String) (m : JMap ClientState) : JMap ClientState :=
  ids.foldl (fun acc i =>
    match jget i acc with
    | none => acc
    | some c => jset i (pushEv ev c) acc) m

/-- The `(id, name)` view of a room's members; `roomSnapshot`'s `users`. -/
def clientProfile (room : Room) : List (String × String) :=
  room.clients.map (fun p => (p.1, p.2.name))

/-- The membership/name view of the whole registry (everything about the
rooms that event pushes and flushes leave untouched). -/
def roomsProfile (rooms : JMap Room) : JMap (List (String × String)) :=
  rooms.map (fun p => (p.1, clientProfile p.2))

/-- The session-exclusivity invariant: every session-table entry points at
an existing room whose member set contains the client, and every member of
every room maps back (so, with unique keys, a client belongs to exactly
the one room its table entry names). -/
def sessionInvP (st : ServerState) : Prop :=
  (∀ p ∈ st.clientRooms,
      ((jget p.2 st.rooms).bind (fun room => jget p.1 room.clients)).isSome = true) ∧
  (∀ q ∈ st.rooms, ∀ p ∈ q.2.clients, jget p.1 st.clientRooms = some q.1)

/-- Running a batch of joins into the same room, one request after the
other (each pair is the joiner's injected id and its `name` field). -/
def foldJoins (now : Nat) (joins : List (String × Option String))
    (roomField : Option String) (st : ServerState) : ServerState :=
  joins.foldl (fun s p => (apiJoin now p.1 p.2 roomField s).state) st

/-- A fixed digit stream for concrete runs (attempt 0 yields code `01234`). -/
def rngId : Nat → Nat := fun n => n

/-- A two-member room `12345` (members `c1`/Ann and `c2`/Bo, empty queues). -/
def roomTwo : Room := ⟨[("c1", ⟨"Ann", 0, []⟩), ("c2", ⟨"Bo", 0, []⟩)], 0⟩

/-- Concrete state: room `12345` with Ann and Bo, no parked polls. -/
def stTwo : ServerState := ⟨[("12345", roomTwo)], [], [("c1", "12345"), ("c2", "12345")]⟩

/-- Concrete state: like `stTwo` but `c1` holds a parked poll with token 7. -/
def stTwoParked : ServerState :=
  ⟨[("12345", roomTwo)], [("c1", 7)], [("c1", "12345"), ("c2", "12345")]⟩

/-- A room `12345` where `c1`/Ann already has one queued event and
`c2`/Bo has an empty queue. -/
def roomQueued : Room :=
  ⟨[("c1", ⟨"Ann", 0, [Event.hello "c1"]⟩), ("c2", ⟨"Bo", 0, []⟩)], 0⟩

/-- Concrete state around `roomQueued`, with no parked polls. -/
def stQueued : ServerState :=
  ⟨[("12345", roomQueued)], [], [("c1", "12345"), ("c2", "12345")]⟩

/-- Concrete state: room `12345` with the single member `c1`, last seen at
time 100 (not stale at a sweep at time 100). -/
def stSolo : ServerState :=
  ⟨[("12345", ⟨[("c1", ⟨"Ann", 100, []⟩)], 0⟩)], [], [("c1", "12345")]⟩

/-- Concrete state: room `12345` whose single member `u1` carries the
default display name `User`. -/
def stUser : ServerState :=
  ⟨[("12345", ⟨[("u1", ⟨"User", 0, []⟩)], 0⟩)], [], [("u1", "12345")]⟩

/-- Concrete state: room `12345` with `c1` last seen at 0 (stale at time
100000) and `c2` last seen at 100000 (fresh). -/
def stStale : ServerState :=
  ⟨[("12345", ⟨[("c1", ⟨"Ann", 0, []⟩), ("c2", ⟨"Bo", 100000, []⟩)], 0⟩)], [],
   [("c1", "12345"), ("c2", "12345")]⟩

/-! ### Association-list (`JMap`) lemmas -/

theorem jget_nil {α : Type} (k : String) : jget k ([] : JMap α) = none := rfl

theorem jget_jset_self {α : Type} (k : String) (v : α) (m : JMap α) :
    jget k (jset k v m) = some v := by
  induction m with
  | nil => simp [jget, jset]
  | cons hd tl ih =>
    by_cases h : hd.1 = k
    · simp [jget, jset, h]
    · simp [jget, jset, h, ih]

theorem jget_cons {α : Type} (k : String) (hd : String × α) (tl : JMap α) :
    jget k (hd :: tl) = if hd.1 = k then some hd.2 else jget k tl := by
  rcases hd with ⟨a, b⟩
  rfl

theorem jset_cons {α : Type} (k : String) (v : α) (hd : String × α) (tl : JMap α) :
    jset k v (hd :: tl) = if hd.1 = k then (k, v) :: tl else hd :: jset k v tl := by
  rcases hd with ⟨a, b⟩
  rfl

theorem jdel_cons {α : Type} (k : String) (hd : String × α) (tl : JMap α) :
    jdel k (hd :: tl) = if hd.1 = k then tl else hd :: jdel k tl := by
  rcases hd with ⟨a, b⟩
  rfl

theorem jkeys_cons {α : Type} (hd : String × α) (tl : JMap α) :
    jkeys (hd :: tl) = hd.1 :: jkeys tl := rfl

theorem jkeys_append {α : Type} (m l : JMap α) :
    jkeys (m ++ l) = jkeys m ++ jkeys l := by
  unfold jkeys
  exact List.map_append Prod.fst m l

theorem jget_jset_ne {α : Type} {k k' : String} (v : α) (m : JMap α)
    (h : k' ≠ k) : jget k (jset k' v m) = jget k m := by
  induction m with
  | nil => simp [jset, jget, h]
  | cons hd tl ih =>
    rw [jset_cons]
    by_cases h1 : hd.1 = k'
    · rw [if_pos h1, jget_cons, jget_cons, if_neg h, h1, if_neg h]
    · rw [if_neg h1, jget_cons, jget_cons]
      by_cases h2 : hd.1 = k
      · rw [if_pos h2, if_pos h2]
      · rw [if_neg h2, if_neg h2, ih]

theorem jget_jdel_ne {α : Type} {k k' : String} (m : JMap α) (h : k' ≠ k) :
    jget k (jdel k' m) = jget k m := by
  induction m with
  | nil => rfl
  | cons hd tl ih =>
    rw [jdel_cons]
    by_cases h1 : hd.1 = k'
    · rw [if_pos h1, jget_cons]
      have h2 : hd.1 ≠ k := by rw [h1]; exact h
      rw [if_neg h2]
    · rw [if_neg h1, jget_cons, jget_cons]
      by_cases h2 : hd.1 = k
      · rw [if_pos h2, if_pos h2]
      · rw [if_neg h2, if_neg h2, ih]

theorem jset_of_jget_none {α : Type} {k : String} {m : JMap α} (v : α)
    (h : jget k m = none) : jset k v m = m ++ [(k, v)] := by
  induction m with
  | nil => rfl
  | cons hd tl ih =>
    rw [jget_cons] at h
    by_cases h1 : hd.1 = k
    · rw [if_pos h1] at h
      exact absurd h (by simp)
    · rw [if_neg h1] at h
      rw [jset_cons, if_neg h1, ih h, List.cons_append]

theorem jget_append_left {α : Type} {k : String} {m : JMap α} {v : α}
    (l : JMap α) (h : jget k m = some v) : jget k (m ++ l) = some v := by
  induction m with
  | nil => exact absurd h (by simp [jget])
  | cons hd tl ih =>
    rw [jget_cons] at h
    rw [List.cons_append, jget_cons]
    by_cases h1 : hd.1 = k
    · rw [if_pos h1] at h ⊢
      exact h
    · rw [if_neg h1] at h ⊢
      exact ih h

theorem jget_append_right {α : Type} {k : String} {m : JMap α}
    (l : JMap α) (h : jget k m = none) : jget k (m ++ l) = jget k l := by
  induction m with
  | nil => rfl
  | cons hd tl ih =>
    rw [jget_cons] at h
    rw [List.cons_append, jget_cons]
    by_cases h1 : hd.1 = k
    · rw [if_pos h1] at h
      exact absurd h (by simp)
    · rw [if_neg h1] at h ⊢
      exact ih h

theorem jget_eq_none_iff {α : Type} {k : String} {m : JMap α} :
    jget k m = none ↔ k ∉ jkeys m := by
  induction m with
  | nil => simp [jget, jkeys]
  | cons hd tl ih =>
    rw [jget_cons, jkeys_cons]
    by_cases h1 : hd.1 = k
    · simp [h1]
    · have h2 : ¬ k = hd.1 := fun he => h1 he.symm
      simp [if_neg h1, ih, h2]

theorem mem_of_jget {α : Type} {k : String} {m : JMap α} {v : α}
    (h : jget k m = some v) : (k, v) ∈ m := by
  induction m with
  | nil => exact absurd h (by simp [jget])
  | cons hd tl ih =>
    rw [jget_cons] at h
    by_cases h1 : hd.1 = k
    · rw [if_pos h1] at h
      have h3 : hd = (k, v) := by
        rcases hd with ⟨a, b⟩
        simp at h1 h ⊢
        exact ⟨h1, h⟩
      rw [← h3]
      exact List.mem_cons_self hd tl
    · rw [if_neg h1] at h
      exact List.mem_cons_of_mem _ (ih h)

theorem jget_isSome_of_mem {α : Type} {p : String × α} {m : JMap α}
    (h : p ∈ m) : (jget p.1 m).isSome = true := by
  induction m with
  | nil => simp at h
  | cons hd tl ih =>
    rw [jget_cons]
    by_cases h1 : hd.1 = p.1
    · rw [if_pos h1]
      rfl
    · rw [if_neg h1]
      rcases List.mem_cons.mp h with h2 | h2
    
      · exact absurd (by rw [h2]) h1
      · exact ih h2

theorem nodupKeys_cons_iff {α : Type} {hd : String × α} {tl : JMap α} :
    nodupKeys (hd :: tl) ↔ hd.1 ∉ jkeys tl ∧ nodupKeys tl := by
  unfold nodupKeys
  rw [jkeys_cons, List.nodup_cons]

theorem mem_jkeys_of_mem {α : Type} {p : String × α} {m : JMap α}
    (h : p ∈ m) : p.1 ∈ jkeys m := List.mem_map_of_mem Prod.fst h

theorem jget_of_mem_nodup {α : Type} {p : String × α} {m : JMap α}
    (hnd : nodupKeys m) (h : p ∈ m) : jget p.1 m = some p.2 := by
  induction m with
  | nil => simp at h
  | cons hd tl ih =>
    obtain ⟨hk, hnd1⟩ := nodupKeys_cons_iff.mp hnd
    rcases List.mem_cons.mp h with h1 | h1
    · subst h1
      rw [jget_cons, if_pos rfl]
    · have hne : hd.1 ≠ p.1 := by
        intro he
        exact hk (he ▸ mem_jkeys_of_mem h1)
      rw [jget_cons, if_neg hne]
      exact ih hnd1 h1

theorem jkeys_jset_present {α : Type} {k : String} {m : JMap α} (v : α)
    (h : (jget k m).isSome = true) : jkeys (jset k v m) = jkeys m := by
  induction m with
  | nil => simp [jget] at h
  | cons hd tl ih =>
    rw [jset_cons]
    by_cases h1 : hd.1 = k
    · rw [if_pos h1, jkeys_cons, jkeys_cons, h1]
    · rw [jget_cons, if_neg h1] at h
      rw [if_neg h1, jkeys_cons, jkeys_cons, ih h]

theorem nodupKeys_jset {α : Type} {k : String} {m : JMap α} (v : α)
    (hnd : nodupKeys m) : nodupKeys (jset k v m) := by
  cases hs : jget k m with
  | some w =>
    unfold nodupKeys
    rw [jkeys_jset_present v (by rw [hs]; rfl)]
    exact hnd
  | none =>
    rw [jset_of_jget_none v hs]
    unfold nodupKeys
    rw [jkeys_append, List.nodup_append]
    refine ⟨hnd, by simp [jkeys], ?_⟩
    intro a ha hb
    have hb1 : a = k := by simpa [jkeys] using hb
    subst hb1
    exact jget_eq_none_iff.mp hs ha

theorem jdel_sublist {α : Type} (k : String) (m : JMap α) :
    (jdel k m).Sublist m := by
  induction m with
  | nil => exact List.Sublist.refl _
  | cons hd tl ih =>
    rw [jdel_cons]
    by_cases h1 : hd.1 = k
    · rw [if_pos h1]
      exact (List.Sublist.refl tl).cons hd
    · rw [if_neg h1]
      exact ih.cons₂ hd

theorem mem_of_mem_jdel {α : Type} {k : String} {p : String × α} {m : JMap α}
    (h : p ∈ jdel k m) : p ∈ m := (jdel_sublist k m).mem h

theorem nodupKeys_jdel {α : Type} (k : String) {m : JMap α}
    (hnd : nodupKeys m) : nodupKeys (jdel k m) :=
  ((jdel_sublist k m).map Prod.fst).nodup hnd

theorem jget_jdel_self {α : Type} (k : String) (m : JMap α) :
    nodupKeys m → jget k (jdel k m) = none := by
  induction m with
  | nil => intro _; rfl
  | cons hd tl ih =>
    intro hnd
    obtain ⟨hk, hnd1⟩ := nodupKeys_cons_iff.mp hnd
    rw [jdel_cons]
    by_cases h1 : hd.1 = k
    · rw [if_pos h1, jget_eq_none_iff, ← h1]
      exact hk
    · rw [if_neg h1, jget_cons, if_neg h1]
      exact ih hnd1

theorem key_ne_of_mem_jdel {α : Type} {k : String} {p : String × α} {m : JMap α}
    (hnd : nodupKeys m) (h : p ∈ jdel k m) : p.1 ≠ k := by
  intro he
  have h1 := jget_of_mem_nodup (nodupKeys_jdel k hnd) h
  rw [he, jget_jdel_self k m hnd] at h1
  exact Option.noConfusion h1

theorem jset_jset_self {α : Type} (k : String) (v w : α) (m : JMap α) :
    jset k v (jset k w m) = jset k v m := by
  induction m with
  | nil => simp [jset]
  | cons hd tl ih =>
    rw [jset_cons]
    by_cases h1 : hd.1 = k
    · rw [if_pos h1, jset_cons, if_pos rfl, jset_cons, if_pos h1]
    · rw [if_neg h1, jset_cons, if_neg h1, jset_cons, if_neg h1, ih]

theorem jset_of_jget_some {α : Type} {k : String} {m : JMap α} {v : α}
    (h : jget k m = some v) : jset k v m = m := by
  induction m with
  | nil => exact absurd h (by simp [jget])
  | cons hd tl ih =>
    rw [jget_cons] at h
    rw [jset_cons]
    by_cases h1 : hd.1 = k
    · rw [if_pos h1] at h ⊢
      have h3 : (k, v) = hd := by
        rcases hd with ⟨a, b⟩
        simp at h1 h ⊢
        exact ⟨h1.symm, h.symm⟩
      rw [h3]
    · rw [if_neg h1] at h ⊢
      rw [ih h]

theorem jdel_jset_self {α : Type} (k : String) (v : α) (m : JMap α) :
    jdel k (jset k v m) = jdel k m := by
  induction m with
  | nil => simp [jset, jdel]
  | cons hd tl ih =>
    rw [jset_cons]
    by_cases h1 : hd.1 = k
    · rw [if_pos h1, jdel_cons, if_pos rfl, jdel_cons, if_pos h1]
    · rw [if_neg h1, jdel_cons, if_neg h1, jdel_cons, if_neg h1, ih]

theorem mem_jset_of_ne {α : Type} {k : String} {p : String × α} {m : JMap α}
    {v : α} (h : p ∈ jset k v m) (hne : p.1 ≠ k) : p ∈ m := by
  induction m with
  | nil =>
    simp [jset] at h
    exact absurd (show p.1 = k by rw [h]) hne
  | cons hd tl ih =>
    rw [jset_cons] at h
    by_cases h1 : hd.1 = k
    · rw [if_pos h1] at h
      rcases List.mem_cons.mp h with h2 | h2
      · rw [h2] at hne
        exact absurd rfl hne
      · exact List.mem_cons_of_mem _ h2
    · rw [if_neg h1] at h
      rcases List.mem_cons.mp h with h2 | h2
      · rw [h2]
        exact List.mem_cons_self hd tl
      · exact List.mem_cons_of_mem _ (ih h2)

theorem jget_map_snd {α β : Type} (f : α → β) (k : String) (m : JMap α) :
    jget k (m.map (fun p => (p.1, f p.2))) = (jget k m).map f := by
  induction m with
  | nil => rfl
  | cons hd tl ih =>
    rw [List.map_cons, jget_cons, jget_cons]
    by_cases h1 : hd.1 = k
    · rw [if_pos h1, if_pos h1]
      rfl
    · rw [if_neg h1, if_neg h1, ih]

theorem jkeys_map_snd {α β : Type} (f : α → β) (m : JMap α) :
    jkeys (m.map (fun p => (p.1, f p.2))) = jkeys m := by
  induction m with
  | nil => rfl
  | cons hd tl ih => rw [List.map_cons, jkeys_cons, jkeys_cons, ih]

theorem jset_map_snd_congr {α β : Type} {k : String} {m : JMap α} {v : α}
    (v' : α) (f : α → β) (h : jget k m = some v) (hf : f v' = f v) :
    (jset k v' m).map (fun p => (p.1, f p.2)) = m.map (fun p => (p.1, f p.2)) := by
  induction m with
  | nil => exact absurd h (by simp [jget])
  | cons hd tl ih =>
    rw [jget_cons] at h
    rw [jset_cons]
    by_cases h1 : hd.1 = k
    · rw [if_pos h1] at h ⊢
      rw [List.map_cons, List.map_cons]
      have h2 : f hd.2 = f v := by rw [Option.some.inj h]
      rw [hf, h2, h1]
    · rw [if_neg h1] at h ⊢
      rw [List.map_cons, List.map_cons, ih h]

theorem countP_key_eq_one {α : Type} {k : String} (m : JMap α) {v : α}
    (hnd : nodupKeys m) (h : jget k m = some v) :
    m.countP (fun p => p.1 == k) = 1 := by
  induction m with
  | nil => exact absurd h (by simp [jget])
  | cons hd tl ih =>
    obtain ⟨hk, hnd1⟩ := nodupKeys_cons_iff.mp hnd
    rw [jget_cons] at h
    rw [List.countP_cons]
    by_cases h1 : hd.1 = k
    · have hz : tl.countP (fun p => p.1 == k) = 0 := by
        rw [List.countP_eq_zero]
        intro p hp
        simp only [beq_iff_eq]
        intro he
        exact hk (h1 ▸ he ▸ mem_jkeys_of_mem hp)
      simp [hz, h1]
    · rw [if_neg h1] at h
      have h2 : (hd.1 == k) = false := by
        simp only [beq_eq_false_iff_ne, ne_eq]
        exact h1
      rw [ih hnd1 h, h2]
      simp

/-! ### Event pushing and flushing -/

theorem flushClient_of_no_pending {id : String} {st : ServerState}
    (h : jget id st.pendingPolls = none) : flushClient id st = ([], st) := by
  unfold flushClient
  rw [h]

theorem pushToClient_pendingPolls (rc id : String) (ev : Event) (st : ServerState) :
    (pushToClient rc id ev st).pendingPolls = st.pendingPolls := by
  unfold pushToClient
  cases jget rc st.rooms with
  | none => rfl
  | some room =>
    dsimp only
    cases jget id room.clients with
    | none => rfl
    | some c => rfl

theorem pushToClient_clientRooms (rc id : String) (ev : Event) (st : ServerState) :
    (pushToClient rc id ev st).clientRooms = st.clientRooms := by
  unfold pushToClient
  cases jget rc st.rooms with
  | none => rfl
  | some room =>
    dsimp only
    cases jget id room.clients with
    | none => rfl
    | some c => rfl

theorem pushToClient_no_client {rc id : String} {st : ServerState} {room : Room}
    (ev : Event) (hr : jget rc st.rooms = some room)
    (hc : jget id room.clients = none) : pushToClient rc id ev st = st := by
  unfold pushToClient
  rw [hr]
  dsimp only
  rw [hc]

theorem pushToClient_spec {rc id : String} {st : ServerState} {room : Room}
    {c : ClientState} (ev : Event) (hr : jget rc st.rooms = some room)
    (hc : jget id room.clients = some c) :
    pushToClient rc id ev st =
      { st with rooms := jset rc ⟨jset id (pushEv ev c) room.clients, room.createdAt⟩ st.rooms } := by
  unfold pushToClient
  rw [hr]
  dsimp only
  rw [hc]
  rfl

theorem pushAll_cons (ev : Event) (id : String) (rest : List String)
    (m : JMap ClientState) :
    pushAll ev (id :: rest) m =
      pushAll ev rest
        (match jget id m with
         | none => m
         | some c => jset id (pushEv ev c) m) := by
  unfold pushAll
  rw [List.foldl_cons]

theorem foldl_pushToClient_spec (rc : String) (ev : Event) :
    ∀ (ids : List String) (st : ServerState) (room : Room),
      jget rc st.rooms = some room →
      ids.foldl (fun s i => pushToClient rc i ev s) st =
        { st with rooms := jset rc ⟨pushAll ev ids room.clients, room.createdAt⟩ st.rooms } := by
  intro ids
  induction ids with
  | nil =>
    intro st room hr
    show st = { st with rooms := jset rc ⟨room.clients, room.createdAt⟩ st.rooms }
    rw [show (⟨room.clients, room.createdAt⟩ : Room) = room from rfl, jset_of_jget_some hr]
  | cons id rest ih =>
    intro st room hr
    rw [List.foldl_cons, pushAll_cons]
    cases hc : jget id room.clients with
    | none =>
      rw [pushToClient_no_client ev hr hc]
      exact ih st room hr
    | some c =>
      rw [pushToClient_spec ev hr hc]
      have h2 := ih
        { st with rooms := jset rc ⟨jset id (pushEv ev c) room.clients, room.createdAt⟩ st.rooms }
        ⟨jset id (pushEv ev c) room.clients, room.createdAt⟩
        (jget_jset_self rc _ st.rooms)
      rw [h2]
      simp only [jset_jset_self]

theorem broadcastLoop_no_pending (rc : String) (ev : Event) :
    ∀ (ids : List String) (st : ServerState), st.pendingPolls = [] →
      broadcastLoop rc ev ids st =
        ([], ids.foldl (fun s i => pushToClient rc i ev s) st) := by
  intro ids
  induction ids with
  | nil => intro st _; rfl
  | cons id rest ih =>
    intro st h
    have hp : (pushToClient rc id ev st).pendingPolls = [] := by
      rw [pushToClient_pendingPolls, h]
    simp only [broadcastLoop]
    rw [List.foldl_cons, flushClient_of_no_pending (by rw [hp]; rfl), ih _ hp]
    simp

theorem pushAll_skip (ev : Event) (k : String) (c : ClientState) :
    ∀ (ids : List String), k ∉ ids → ∀ (rest : JMap ClientState),
      pushAll ev ids ((k, c) :: rest) = (k, c) :: pushAll ev ids rest := by
  intro ids
  induction ids with
  | nil => intro _ rest; rfl
  | cons i is ih =>
    intro hk rest
    have hki : k ≠ i := fun he => hk (he ▸ List.mem_cons_self i is)
    have his : k ∉ is := fun hm => hk (List.mem_cons_of_mem _ hm)
    rw [pushAll_cons, pushAll_cons, jget_cons]
    rw [if_neg (show ((k, c) : String × ClientState).1 ≠ i from hki)]
    cases hg : jget i rest with
    | none => exact ih his rest
    | some ci =>
      dsimp only
      rw [jset_cons]
      rw [if_neg (show ((k, c) : String × ClientState).1 ≠ i from hki)]
      exact ih his (jset i (pushEv ev ci) rest)

theorem pushAll_jkeys_eq_map (ev : Event) :
    ∀ (m : JMap ClientState), nodupKeys m →
      pushAll ev (jkeys m) m = m.map (fun p => (p.1, pushEv ev p.2)) := by
  intro m
  induction m with
  | nil => intro _; rfl
  | cons hd tl ih =>
    intro hnd
    obtain ⟨hk, hnd1⟩ := nodupKeys_cons_iff.mp hnd
    rcases hd with ⟨k, c⟩
    rw [jkeys_cons, pushAll_cons, jget_cons, if_pos rfl]
    dsimp only
    rw [jset_cons, if_pos rfl]
    rw [pushAll_skip ev k (pushEv ev c) (jkeys tl) hk tl]
    rw [List.map_cons, ih hnd1]

theorem broadcast_no_pending {st : ServerState} {rc : String} {room : Room}
    (ev : Event) (hp : st.pendingPolls = []) (hr : jget rc st.rooms = some room)
    (hnd : nodupKeys room.clients) :
    broadcast rc ev st =
      ([], { st with rooms := jset rc ⟨room.clients.map (fun p => (p.1, pushEv ev p.2)), room.createdAt⟩ st.rooms }) := by
  have h0 : broadcast rc ev st = broadcastLoop rc ev (jkeys room.clients) st := by
    unfold broadcast
    rw [hr]
  rw [h0, broadcastLoop_no_pending rc ev (jkeys room.clients) st hp,
      foldl_pushToClient_spec rc ev (jkeys room.clients) st room hr,
      pushAll_jkeys_eq_map ev room.clients hnd]

theorem broadcast_flushed_nil {st : ServerState} (rc : String) (ev : Event)
    (hp : st.pendingPolls = []) : (broadcast rc ev st).1 = [] := by
  unfold broadcast
  cases hr : jget rc st.rooms with
  | none => rfl
  | some room =>
    dsimp only
    rw [broadcastLoop_no_pending rc ev (jkeys room.clients) st hp]

/-! ### C1: broadcast order and FIFO polling -/

/-- C1: two events broadcast to the same room are appended to every
member's queue in broadcast order, and a poll returns a non-empty queue
whole, in order, emptying it — so each client receives events across its
polls in broadcast order. -/
theorem broadcast_order_and_poll_fifo (st : ServerState) (rc : String) (room : Room)
    (e1 e2 : Event) (hp : st.pendingPolls = []) (hr : jget rc st.rooms = some room)
    (hnd : nodupKeys room.clients) :
    (∀ id c, jget id room.clients = some c →
      ∃ room2, jget rc ((broadcast rc e2 (broadcast rc e1 st).2).2).rooms = some room2 ∧
        jget id room2.clients = some { c with events := c.events ++ [e1, e2] }) ∧
    (∀ now tok id c, jget id st.clientRooms = some rc → jget id room.clients = some c →
      c.events ≠ [] →
      (apiPoll now tok id st).result = .events c.events ∧
      ∃ room3, jget rc (apiPoll now tok id st).state.rooms = some room3 ∧
        jget id room3.clients = some { c with lastSeen := now, events := [] }) := by
  constructor
  · intro id c hc
    have hnd1 : nodupKeys (room.clients.map (fun p => (p.1, pushEv e1 p.2))) := by
      unfold nodupKeys
      rw [jkeys_map_snd]
      exact hnd
    have h1 : (broadcast rc e1 st).2 = { st with rooms := jset rc ⟨room.clients.map (fun p => (p.1, pushEv e1 p.2)), room.createdAt⟩ st.rooms } := by
      rw [broadcast_no_pending e1 hp hr hnd]
    have h2 := broadcast_no_pending e2
      (show ({ st with rooms := jset rc ⟨room.clients.map (fun p => (p.1, pushEv e1 p.2)), room.createdAt⟩ st.rooms } : ServerState).pendingPolls = [] from hp)
      (jget_jset_self rc ⟨room.clients.map (fun p => (p.1, pushEv e1 p.2)), room.createdAt⟩ st.rooms)
      hnd1
    rw [h1, h2]
    dsimp only
    rw [jset_jset_self]
    refine ⟨_, jget_jset_self rc _ st.rooms, ?_⟩
    dsimp only
    rw [jget_map_snd, jget_map_snd, hc]
    simp [pushEv]
  · intro now tok id c hcr hc hne
    unfold apiPoll
    rw [hcr]
    dsimp only
    rw [hr]
    dsimp only
    rw [hc]
    dsimp only
    rw [if_pos hne]
    refine ⟨rfl, _, jget_jset_self rc _ st.rooms, jget_jset_self id _ room.clients⟩

/-- Witness for C1 at a concrete two-member room: after two broadcasts
`c1`'s queue holds its old event then both new ones in order, and a poll
on the non-empty queue drains it whole. -/
theorem broadcast_order_and_poll_fifo_witness :
    ((jget "12345" ((broadcast "12345" (Event.msg "12345" "c2" "Bo" "hi" 5)
        ((broadcast "12345" (Event.joined "12345" "c9") stQueued).2)).2).rooms).bind
      (fun r => jget "c1" r.clients))
      = some ⟨"Ann", 0, [Event.hello "c1", Event.joined "12345" "c9",
                         Event.msg "12345" "c2" "Bo" "hi" 5]⟩ ∧
    (apiPoll 50 1 "c1" stQueued).result = ApiResult.events [Event.hello "c1"] := by
  obtain ⟨h1, h2⟩ := broadcast_order_and_poll_fifo stQueued "12345" roomQueued
    (Event.joined "12345" "c9") (Event.msg "12345" "c2" "Bo" "hi" 5)
    rfl (by decide) (by unfold nodupKeys; decide)
  constructor
  · obtain ⟨room2, hr2, hc2⟩ := h1 "c1" ⟨"Ann", 0, [Event.hello "c1"]⟩ (by decide)
    rw [hr2]
    exact hc2
  · exact (h2 50 1 "c1" ⟨"Ann", 0, [Event.hello "c1"]⟩ (by decide) (by decide)
      (by decide)).1

/-! ### C2: a superseding poll empty-flushes the parked one -/

/-- C2: when a client with a parked poll (token `t1`) and an empty queue
polls again (token `tok`), the old parked request is answered with an
empty event list, the new request is parked, and exactly one parked
registration remains for that client id. -/
theorem poll_supersedes_parked (st : ServerState) (now tok t1 : Nat) (id rc : String)
    (room : Room) (c : ClientState)
    (hnd : nodupKeys st.pendingPolls)
    (hcr : jget id st.clientRooms = some rc) (hr : jget rc st.rooms = some room)
    (hc : jget id room.clients = some c) (he : c.events = [])
    (hp : jget id st.pendingPolls = some t1) :
    (apiPoll now tok id st).flushed = [(t1, [])] ∧
    (apiPoll now tok id st).result = .parked tok ∧
    jget id (apiPoll now tok id st).state.pendingPolls = some tok ∧
    (apiPoll now tok id st).state.pendingPolls.countP (fun p => p.1 == id) = 1 := by
  unfold apiPoll
  rw [hcr]
  dsimp only
  rw [hr]
  dsimp only
  rw [hc]
  dsimp only
  rw [if_neg (show ¬ c.events ≠ [] from fun hne => hne he)]
  rw [show ({ st with rooms := jset rc ⟨jset id { c with lastSeen := now } room.clients, room.createdAt⟩ st.rooms } : ServerState).pendingPolls = st.pendingPolls from rfl]
  rw [hp]
  dsimp only
  refine ⟨rfl, rfl, jget_jset_self id tok st.pendingPolls, ?_⟩
  exact countP_key_eq_one _ (nodupKeys_jset tok hnd) (jget_jset_self id tok st.pendingPolls)

/-- Witness for C2: `c1` is parked with token 7 and polls again with
token 9: the old request is answered `[]`, the new one parked alone. -/
theorem poll_supersedes_parked_witness :
    (apiPoll 50 9 "c1" stTwoParked).flushed = [(7, [])] ∧
    (apiPoll 50 9 "c1" stTwoParked).result = .parked 9 ∧
    jget "c1" (apiPoll 50 9 "c1" stTwoParked).state.pendingPolls = some 9 ∧
    (apiPoll 50 9 "c1" stTwoParked).state.pendingPolls.countP (fun p => p.1 == "c1") = 1 :=
  poll_supersedes_parked stTwoParked 50 9 7 "c1" "12345" roomTwo ⟨"Ann", 0, []⟩
    (by unfold nodupKeys; decide) (by decide) (by decide) (by decide) rfl (by decide)

theorem foldl_pushToClient_pendingPolls (rc : String) (ev : Event) :
    ∀ (ids : List String) (st : ServerState),
      (ids.foldl (fun s i => pushToClient rc i ev s) st).pendingPolls = st.pendingPolls := by
  intro ids
  induction ids with
  | nil => intro st; rfl
  | cons id rest ih =>
    intro st
    rw [List.foldl_cons, ih, pushToClient_pendingPolls]

theorem broadcast_pendingPolls_nil {st : ServerState} (rc : String) (ev : Event)
    (hp : st.pendingPolls = []) : (broadcast rc ev st).2.pendingPolls = [] := by
  unfold broadcast
  cases hr : jget rc st.rooms with
  | none => exact hp
  | some room =>
    dsimp only
    rw [broadcastLoop_no_pending rc ev (jkeys room.clients) st hp]
    dsimp only
    rw [foldl_pushToClient_pendingPolls]
    exact hp

/-! ### C3: behaviour of send -/

/-- C3 counterexample: a room member sending all-whitespace text gets a
400 `'No text provided.'` error, not the silent no-op success the spec
describes. -/
theorem send_empty_text_errors :
    (apiSend 0 "c1" (some "   ") stTwo).result = .error 400 "No text provided." ∧
    (apiSend 0 "c1" (some "   ") stTwo).result ≠ .okTrue ∧
    (apiSend 0 "c1" (some "   ") stTwo).state = stTwo := by
  refine ⟨by decide, by decide, by decide⟩

/-- C3 (amended): a send whose sanitized text is empty fails with a 400
`'No text provided.'` error and no state change (the check precedes the
membership check, so even a roomless client gets this error); a roomless
client with non-empty text fails with `'Not in a room.'`; a member's
non-empty send broadcasts exactly one `msg` event carrying the
server-assigned timestamp and the sender's stored name. -/
theorem send_behavior (now : Nat) (id : String) (textF : Option String)
    (st : ServerState) :
    (safeText textF = "" →
      apiSend now id textF st = ⟨.error 400 "No text provided.", [], st⟩) ∧
    (safeText textF ≠ "" → jget id st.clientRooms = none →
      apiSend now id textF st = ⟨.error 400 "Not in a room.", [], st⟩) ∧
    (∀ rc room c, safeText textF ≠ "" → jget id st.clientRooms = some rc →
      jget rc st.rooms = some room → jget id room.clients = some c →
      st.pendingPolls = [] → nodupKeys room.clients →
      (apiSend now id textF st).result = .okTrue ∧
      ∃ room2, jget rc (apiSend now id textF st).state.rooms = some room2 ∧
        ∀ mid mc, jget mid room.clients = some mc →
          jget mid room2.clients =
            some { mc with events :=
              mc.events ++ [.msg rc id c.name (safeText textF) now] }) := by
  refine ⟨?_, ?_, ?_⟩
  · intro he
    unfold apiSend
    rw [if_pos he]
  · intro hne hcr
    unfold apiSend
    rw [if_neg hne, hcr]
  · intro rc room c hne hcr hr hc hp hnd
    unfold apiSend
    rw [if_neg hne, hcr]
    dsimp only
    rw [hr]
    dsimp only
    rw [hc]
    dsimp only
    rw [broadcast_no_pending (.msg rc id c.name (safeText textF) now) hp hr hnd]
    dsimp only
    refine ⟨rfl, _, jget_jset_self rc _ st.rooms, ?_⟩
    intro mid mc hmc
    dsimp only
    rw [jget_map_snd, hmc]
    simp [pushEv]

/-- Witness for C3 at concrete inputs: whitespace text errors even for a
member; an outsider with real text gets the room error; Bo's send lands
in Ann's queue with timestamp 5 and name `Bo`. -/
theorem send_behavior_witness :
    apiSend 0 "c1" (some "   ") stTwo = ⟨.error 400 "No text provided.", [], stTwo⟩ ∧
    apiSend 0 "c9" (some "yo") stTwo = ⟨.error 400 "Not in a room.", [], stTwo⟩ ∧
    (apiSend 5 "c2" (some "hi") stTwo).result = .okTrue ∧
    ((jget "12345" (apiSend 5 "c2" (some "hi") stTwo).state.rooms).bind
      (fun r => jget "c1" r.clients)) =
        some ⟨"Ann", 0, [Event.msg "12345" "c2" "Bo" "hi" 5]⟩ := by
  have h3 := (send_behavior 5 "c2" (some "hi") stTwo).2.2 "12345" roomTwo ⟨"Bo", 0, []⟩
    (by decide) (by decide) (by decide) (by decide) rfl (by unfold nodupKeys; decide)
  refine ⟨(send_behavior 0 "c1" (some "   ") stTwo).1 (by decide),
          (send_behavior 0 "c9" (some "yo") stTwo).2.1 (by decide) (by decide),
          h3.1, ?_⟩
  obtain ⟨room2, hr2, hall⟩ := h3.2
  rw [hr2]
  show jget "c1" room2.clients = some ⟨"Ann", 0, [Event.msg "12345" "c2" "Bo" "hi" 5]⟩
  rw [hall "c1" ⟨"Ann", 0, []⟩ (by decide)]
  decide

/-! ### C4: leave and the parked poll -/

/-- C4 counterexample: `c1` holds a parked poll (token 7) and leaves; no
response is ever sent to that parked request (the flushed log is empty) —
it is dropped, not resolved with an empty event list. -/
theorem leave_drops_parked_poll_counterexample :
    (apiLeave "c1" stTwoParked).flushed = [] ∧
    jget "c1" (apiLeave "c1" stTwoParked).state.pendingPolls = none := by
  refine ⟨by decide, by decide⟩

/-- C4 (amended): leave cancels a parked poll by discarding it: the
registration is removed (and its timer cleared) but no response is sent —
the parked request is left unanswered rather than resolved with an empty
event list. -/
theorem leave_discards_parked_poll (st : ServerState) (id rc : String)
    (room : Room) (t : Nat)
    (hcr : jget id st.clientRooms = some rc) (hr : jget rc st.rooms = some room)
    (hp : st.pendingPolls = [(id, t)]) :
    (apiLeave id st).result = .okTrue ∧
    (apiLeave id st).flushed = [] ∧
    (apiLeave id st).state.pendingPolls = [] := by
  have hdel : jdel id st.pendingPolls = [] := by
    rw [hp]
    simp [jdel]
  unfold apiLeave
  rw [hcr]
  dsimp only
  rw [hr]
  dsimp only
  by_cases hemp : (jdel id room.clients).isEmpty
  · rw [if_pos hemp]
    exact ⟨rfl, rfl, hdel⟩
  · rw [if_neg hemp]
    have hsnap : roomSnapshot rc (jset rc (⟨jdel id room.clients, room.createdAt⟩ : Room) st.rooms) =
        some ⟨rc, (jdel id room.clients).map (fun p => (p.1, p.2.name)),
              ((jdel id room.clients).map (fun p => (p.1, p.2.name))).length⟩ := by
      unfold roomSnapshot
      rw [jget_jset_self]
    rw [hsnap]
    dsimp only
    refine ⟨rfl, ?_, ?_⟩
    · exact broadcast_flushed_nil rc _ hdel
    · exact broadcast_pendingPolls_nil rc _ hdel

/-- Witness for C4: the concrete parked state, where the survivors branch
is taken. -/
theorem leave_discards_parked_poll_witness :
    (apiLeave "c1" stTwoParked).result = .okTrue ∧
    (apiLeave "c1" stTwoParked).flushed = [] ∧
    (apiLeave "c1" stTwoParked).state.pendingPolls = [] :=
  leave_discards_parked_poll stTwoParked "c1" "12345" roomTwo 7
    (by decide) (by decide) rfl

/-! ### C6: the sweep broadcasts even without evictions -/

/-- C6: sweeping `stSolo` at time 100 evicts nobody (its only member was
seen at 100) yet still appends a `presence` event to that member's queue —
the code broadcasts to every non-empty room on every sweep, contradicting
its own `Broadcast presence if clients were removed` comment. -/
theorem cleanup_broadcasts_without_eviction :
    (cleanup 100 stSolo).2 =
      ⟨[("12345", ⟨[("c1", ⟨"Ann", 100, [Event.presence "12345" [("c1", "Ann")] 1]⟩)], 0⟩)],
       [], [("c1", "12345")]⟩ ∧
    (cleanup 100 stSolo).1 = [] := by
  refine ⟨by decide, by decide⟩

/-! ### C5: room-code allocation -/

theorem digitChar_isDigit (d : Nat) : (digitChar d).isDigit = true := by
  unfold digitChar
  have h : d % 10 < 10 := Nat.mod_lt d (by norm_num)
  interval_cases h1 : d % 10 <;> decide

theorem makeRoomCode_fiveDigit (rng : Nat → Nat) (i : Nat) :
    fiveDigitCode (makeRoomCode rng i) = true := by
  unfold fiveDigitCode makeRoomCode
  simp [digitChar_isDigit]

theorem createRoomLoop_ok (rng : Nat → Nat) (now : Nat) :
    ∀ (fuel i : Nat) (rooms : JMap Room) (code : String) (rooms2 : JMap Room),
      createRoomLoop rng now rooms i fuel = .ok (code, rooms2) →
      fiveDigitCode code = true ∧ jget code rooms = none ∧
        rooms2 = jset code ⟨[], now⟩ rooms := by
  intro fuel
  induction fuel with
  | zero =>
    intro i rooms code rooms2 h
    exact absurd h (by simp [createRoomLoop])
  | succ n ih =>
    intro i rooms code rooms2 h
    simp only [createRoomLoop] at h
    by_cases hg : (jget (makeRoomCode rng i) rooms).isSome
    · rw [if_pos hg] at h
      exact ih (i + 1) rooms code rooms2 h
    · rw [if_neg hg] at h
      simp only [Except.ok.injEq, Prod.mk.injEq] at h
      obtain ⟨h1, h2⟩ := h
      refine ⟨h1 ▸ makeRoomCode_fiveDigit rng i, ?_, ?_⟩
      · rw [← h1]
        exact Option.not_isSome_iff_eq_none.mp hg
      · rw [← h1, ← h2]

theorem createRoomLoop_exhausted (rng : Nat → Nat) (now : Nat) (rooms : JMap Room) :
    ∀ (fuel i : Nat),
      (∀ j, i ≤ j → j < i + fuel → (jget (makeRoomCode rng j) rooms).isSome = true) →
      createRoomLoop rng now rooms i fuel = .error "Could not create room" := by
  intro fuel
  induction fuel with
  | zero => intro i _; rfl
  | succ n ih =>
    intro i h
    have hi : (jget (makeRoomCode rng i) rooms).isSome = true :=
      h i (Nat.le_refl i) (by omega)
    simp only [createRoomLoop]
    rw [if_pos hi]
    exact ih (i + 1) (fun j hj1 hj2 => h j (by omega) (by omega))

theorem createRoom_ok {rng : Nat → Nat} {now : Nat} {requested : String}
    {rooms : JMap Room} {code : String} {rooms2 : JMap Room}
    (h : createRoom rng now requested rooms = .ok (code, rooms2)) :
    fiveDigitCode code = true ∧ jget code rooms = none ∧
      rooms2 = jset code ⟨[], now⟩ rooms := by
  unfold createRoom at h
  by_cases hreq : requested ≠ ""
  · rw [if_pos hreq] at h
    by_cases hbad : requested.length ≠ 5 ∨ fiveDigitCode requested = false
    · rw [if_pos hbad] at h
      exact absurd h (by simp)
    · rw [if_neg hbad] at h
      by_cases htaken : (jget requested rooms).isSome
      · rw [if_pos htaken] at h
        exact absurd h (by simp)
      · rw [if_neg htaken] at h
        simp only [Except.ok.injEq, Prod.mk.injEq] at h
        obtain ⟨h1, h2⟩ := h
        push_neg at hbad
        obtain ⟨hlen, hfdc⟩ := hbad
        refine ⟨h1 ▸ ?_, ?_, ?_⟩
        · rcases Bool.eq_false_or_eq_true (fiveDigitCode requested) with hb | hb
          · exact hb
          · exact absurd hb hfdc
        · rw [← h1]
          exact Option.not_isSome_iff_eq_none.mp htaken
        · rw [← h1, ← h2]
  · rw [if_neg hreq] at h
    exact createRoomLoop_ok rng now 10000 0 rooms code rooms2 h

theorem apiCreate_fail (rng : Nat → Nat) (now : Nat) (cid : String)
    (nameF roomF : Option String) (st : ServerState) (e : String)
    (h : createRoom rng now (safeText roomF) st.rooms = .error e) :
    apiCreate rng now cid nameF roomF st = ⟨.error 400 e, [], st⟩ := by
  unfold apiCreate
  dsimp only
  rw [h]

theorem apiCreate_ok (rng : Nat → Nat) (now : Nat) (cid : String)
    (nameF roomF : Option String) (st : ServerState) (code : String)
    (rooms1 : JMap Room)
    (h : createRoom rng now (safeText roomF) st.rooms = .ok (code, rooms1)) :
    apiCreate rng now cid nameF roomF st =
      ⟨.okRoom cid code [(cid, nameOrUser nameF)] 1, [],
       ⟨jset code ⟨[(cid, ⟨nameOrUser nameF, now,
            [.hello cid, .created code cid,
             .presence code [(cid, nameOrUser nameF)] 1]⟩)], now⟩ st.rooms,
        st.pendingPolls, jset cid code st.clientRooms⟩⟩ := by
  obtain ⟨hfd, hfree, hr1⟩ := createRoom_ok h
  subst hr1
  unfold apiCreate
  dsimp only
  rw [h]
  simp only [pushToClient, roomSnapshot, jget_jset_self, jset_jset_self, jset, jget,
             if_pos, List.map_cons, List.map_nil, List.length_cons, List.length_nil]
  simp

/-- C5: a supplied room code that is not exactly five digits fails with
`'Room code must be 5 digits.'` and a taken one with
`'Room code already in use.'`, both leaving the state unchanged; with no
code supplied, if every generated candidate is taken the create fails with
`'Could not create room'`, unchanged; and every successful create answers
with a code that is exactly five digits, was no live room's code before,
and now names the creator's room. -/
theorem create_room_code_rules (rng : Nat → Nat) (now : Nat) (cid : String)
    (nameF roomF : Option String) (st : ServerState) :
    (safeText roomF ≠ "" →
      ((safeText roomF).length ≠ 5 ∨ fiveDigitCode (safeText roomF) = false) →
      apiCreate rng now cid nameF roomF st = ⟨.error 400 "Room code must be 5 digits.", [], st⟩) ∧
    (safeText roomF ≠ "" → (safeText roomF).length = 5 →
      fiveDigitCode (safeText roomF) = true →
      (jget (safeText roomF) st.rooms).isSome = true →
      apiCreate rng now cid nameF roomF st = ⟨.error 400 "Room code already in use.", [], st⟩) ∧
    (safeText roomF = "" →
      (∀ j, j < 10000 → (jget (makeRoomCode rng j) st.rooms).isSome = true) →
      apiCreate rng now cid nameF roomF st = ⟨.error 400 "Could not create room", [], st⟩) ∧
    (∀ rid code users n,
      (apiCreate rng now cid nameF roomF st).result = .okRoom rid code users n →
      fiveDigitCode code = true ∧ jget code st.rooms = none ∧
      ∃ room2, jget code (apiCreate rng now cid nameF roomF st).state.rooms = some room2 ∧
        jget cid room2.clients =
          some ⟨nameOrUser nameF, now,
            [.hello cid, .created code cid,
             .presence code [(cid, nameOrUser nameF)] 1]⟩) := by
  refine ⟨?_, ?_, ?_, ?_⟩
  · intro hne hbad
    refine apiCreate_fail rng now cid nameF roomF st _ ?_
    unfold createRoom
    rw [if_pos hne, if_pos hbad]
  · intro hne hlen hfdc htaken
    refine apiCreate_fail rng now cid nameF roomF st _ ?_
    unfold createRoom
    rw [if_pos hne, if_neg (by simp [hlen, hfdc]), if_pos htaken]
  · intro hcode hall
    refine apiCreate_fail rng now cid nameF roomF st _ ?_
    unfold createRoom
    rw [hcode]
    simp only [ne_eq, not_true_eq_false, if_false]
    exact createRoomLoop_exhausted rng now st.rooms 10000 0
      (fun j hj1 hj2 => hall j (by omega))
  · intro rid code users n hres
    cases hcr : createRoom rng now (safeText roomF) st.rooms with
    | error e =>
      rw [apiCreate_fail rng now cid nameF roomF st e hcr] at hres
      exact absurd hres (by simp)
    | ok pr =>
      obtain ⟨code0, roomsA⟩ := pr
      rw [apiCreate_ok rng now cid nameF roomF st code0 roomsA hcr] at hres
      obtain ⟨hfd, hfree, -⟩ := createRoom_ok hcr
      have hc0 : code0 = code := by
        cases hres
        rfl
      subst hc0
      rw [apiCreate_ok rng now cid nameF roomF st code0 roomsA hcr]
      refine ⟨hfd, hfree, _, jget_jset_self code0 _ st.rooms, ?_⟩
      rw [jget_cons, if_pos rfl]

/-- Witness for C5 at concrete inputs: a bad supplied code, a taken code,
an allocation run where every candidate collides, and one successful
random allocation. -/
theorem create_room_code_rules_witness :
    apiCreate rngId 0 "cX" none (some "abc") stTwo =
      ⟨.error 400 "Room code must be 5 digits.", [], stTwo⟩ ∧
    apiCreate rngId 0 "cX" none (some "12345") stTwo =
      ⟨.error 400 "Room code already in use.", [], stTwo⟩ ∧
    apiCreate (fun _ => 0) 0 "cX" none none
        ⟨[("00000", ⟨[], 0⟩)], [], []⟩ =
      ⟨.error 400 "Could not create room", [], ⟨[("00000", ⟨[], 0⟩)], [], []⟩⟩ ∧
    fiveDigitCode "01234" = true ∧ jget "01234" stTwo.rooms = none ∧
    ((jget "01234" (apiCreate rngId 7 "cX" none none stTwo).state.rooms).bind
      (fun r => jget "cX" r.clients)) =
        some ⟨"User", 7, [.hello "cX", .created "01234" "cX",
                          .presence "01234" [("cX", "User")] 1]⟩ := by
  have h4 := (create_room_code_rules rngId 7 "cX" none none stTwo).2.2.2
    "cX" "01234" [("cX", "User")] 1 (by decide)
  refine ⟨(create_room_code_rules rngId 0 "cX" none (some "abc") stTwo).1
            (by decide) (by decide),
          (create_room_code_rules rngId 0 "cX" none (some "12345") stTwo).2.1
            (by decide) (by decide) (by decide) (by decide),
          (create_room_code_rules (fun _ => 0) 0 "cX" none none
              ⟨[("00000", ⟨[], 0⟩)], [], []⟩).2.2.1
            (by decide) (fun j hj => by
              rw [show makeRoomCode (fun _ => 0) j = "00000" from rfl]
              decide),
          h4.1, h4.2.1, ?_⟩
  obtain ⟨room2, hr2, hc2⟩ := h4.2.2
  rw [hr2]
  exact hc2

/-! ### More handler-level helper lemmas -/

theorem broadcast_no_pending_ex (rc : String) (ev : Event) (R : JMap Room)
    (P : JMap Nat) (C : JMap String) (room : Room)
    (hp : P = []) (hr : jget rc R = some room) (hnd : nodupKeys room.clients) :
    broadcast rc ev ⟨R, P, C⟩ =
      ([], ⟨jset rc ⟨room.clients.map (fun p => (p.1, pushEv ev p.2)), room.createdAt⟩ R, P, C⟩) := by
  subst hp
  exact broadcast_no_pending ev rfl hr hnd

theorem apiPoll_drain (st : ServerState) (now tok : Nat) (id rc : String)
    (room : Room) (c : ClientState)
    (hcr : jget id st.clientRooms = some rc) (hr : jget rc st.rooms = some room)
    (hc : jget id room.clients = some c) (hne : c.events ≠ []) :
    (apiPoll now tok id st).result = .events c.events ∧
    ∃ room3, jget rc (apiPoll now tok id st).state.rooms = some room3 ∧
      jget id room3.clients = some { c with lastSeen := now, events := [] } := by
  unfold apiPoll
  rw [hcr]
  dsimp only
  rw [hr]
  dsimp only
  rw [hc]
  dsimp only
  rw [if_pos hne]
  exact ⟨rfl, _, jget_jset_self rc _ st.rooms, jget_jset_self id _ room.clients⟩

theorem apiSend_ok (st : ServerState) (now : Nat) (id rc : String) (room : Room)
    (c : ClientState) (textF : Option String)
    (hp : st.pendingPolls = []) (hnd : nodupKeys room.clients)
    (hcr : jget id st.clientRooms = some rc) (hr : jget rc st.rooms = some room)
    (hc : jget id room.clients = some c) (ht : safeText textF ≠ "") :
    apiSend now id textF st =
      ⟨.okTrue, [],
       { st with rooms := jset rc ⟨room.clients.map (fun p => (p.1, pushEv (.msg rc id c.name (safeText textF) now) p.2)), room.createdAt⟩ st.rooms }⟩ := by
  unfold apiSend
  rw [if_neg ht, hcr]
  dsimp only
  rw [hr]
  dsimp only
  rw [hc]
  dsimp only
  rw [broadcast_no_pending (.msg rc id c.name (safeText textF) now) hp hr hnd]

/-! ### C9: the sender receives its own message -/

/-- C9: `broadcast` iterates over every room member including the sender,
so a successful send appends the `msg` event to the sender's own queue,
and the sender's next poll returns it. -/
theorem sender_receives_own_msg (st : ServerState) (now now2 tok : Nat)
    (id rc : String) (room : Room) (c : ClientState) (textF : Option String)
    (hp : st.pendingPolls = []) (hnd : nodupKeys room.clients)
    (hcr : jget id st.clientRooms = some rc) (hr : jget rc st.rooms = some room)
    (hc : jget id room.clients = some c) (ht : safeText textF ≠ "") :
    ∃ room2, jget rc (apiSend now id textF st).state.rooms = some room2 ∧
      jget id room2.clients =
        some { c with events := c.events ++ [.msg rc id c.name (safeText textF) now] } ∧
      (apiPoll now2 tok id (apiSend now id textF st).state).result =
        .events (c.events ++ [.msg rc id c.name (safeText textF) now]) := by
  rw [apiSend_ok st now id rc room c textF hp hnd hcr hr hc ht]
  dsimp only
  refine ⟨_, jget_jset_self rc _ st.rooms, ?_, ?_⟩
  · rw [jget_map_snd, hc]
    rfl
  · have hcr2 : jget id ({ st with rooms := jset rc ⟨room.clients.map (fun p => (p.1, pushEv (.msg rc id c.name (safeText textF) now) p.2)), room.createdAt⟩ st.rooms } : ServerState).clientRooms = some rc := hcr
    have hc2 : jget id (⟨room.clients.map (fun p => (p.1, pushEv (.msg rc id c.name (safeText textF) now) p.2)), room.createdAt⟩ : Room).clients =
        some (pushEv (.msg rc id c.name (safeText textF) now) c) := by
      dsimp only
      rw [jget_map_snd, hc]
      rfl
    have h3 := apiPoll_drain _ now2 tok id rc _ _ hcr2 (jget_jset_self rc _ st.rooms) hc2
      (by simp [pushEv])
    exact h3.1

/-- Witness for C9: Bo sends `hi` in the two-member room and Bo's own next
poll returns that very message. -/
theorem sender_receives_own_msg_witness :
    ((jget "12345" (apiSend 5 "c2" (some "hi") stTwo).state.rooms).bind
      (fun r => jget "c2" r.clients)) =
        some ⟨"Bo", 0, [Event.msg "12345" "c2" "Bo" "hi" 5]⟩ ∧
    (apiPoll 6 1 "c2" (apiSend 5 "c2" (some "hi") stTwo).state).result =
      .events [Event.msg "12345" "c2" "Bo" "hi" 5] := by
  obtain ⟨room2, hr2, hc2, hpoll⟩ := sender_receives_own_msg stTwo 5 6 1 "c2" "12345"
    roomTwo ⟨"Bo", 0, []⟩ (some "hi") rfl (by unfold nodupKeys; decide)
    (by decide) (by decide) (by decide) (by decide)
  refine ⟨?_, hpoll⟩
  rw [hr2]
  exact hc2

theorem clientProfile_keys (room : Room) :
    jkeys (clientProfile room) = jkeys room.clients := by
  unfold clientProfile
  exact jkeys_map_snd (fun c => c.name) room.clients

theorem apiJoin_ok (now : Nat) (cid : String) (nameF roomF : Option String)
    (st : ServerState) (rc : String) (room : Room)
    (hrf : safeText roomF = rc) (hlen : rc.length = 5)
    (hfdc : fiveDigitCode rc = true)
    (hr : jget rc st.rooms = some room) (hfresh : jget cid room.clients = none)
    (hp : st.pendingPolls = []) (hnd : nodupKeys room.clients) :
    apiJoin now cid nameF roomF st =
      ⟨.okRoom cid rc (clientProfile room ++ [(cid, nameOrUser nameF)])
          (clientProfile room ++ [(cid, nameOrUser nameF)]).length,
       [],
       ⟨jset rc ⟨(room.clients ++ [(cid, (⟨nameOrUser nameF, now, [.hello cid, .joined rc cid]⟩ : ClientState))]).map
            (fun p => (p.1, pushEv (.presence rc (clientProfile room ++ [(cid, nameOrUser nameF)])
              (clientProfile room ++ [(cid, nameOrUser nameF)]).length) p.2)),
          room.createdAt⟩ st.rooms,
        st.pendingPolls, jset cid rc st.clientRooms⟩⟩ := by
  have hne : rc ≠ "" := by
    intro he
    rw [he] at hlen
    simp at hlen
  unfold apiJoin
  dsimp only
  rw [hrf, if_neg (by simp [hne, hlen, hfdc]), hr]
  dsimp only
  simp only [pushToClient, jget_jset_self, jset_jset_self, roomSnapshot,
             List.nil_append, List.cons_append, List.append_nil]
  rw [broadcast_no_pending_ex rc
        (.presence rc ((jset cid (⟨nameOrUser nameF, now, [Event.hello cid, Event.joined rc cid]⟩ : ClientState) room.clients).map (fun p => (p.1, p.2.name)))
          (((jset cid (⟨nameOrUser nameF, now, [Event.hello cid, Event.joined rc cid]⟩ : ClientState) room.clients).map (fun p => (p.1, p.2.name))).length))
        (jset rc ⟨jset cid (⟨nameOrUser nameF, now, [Event.hello cid, Event.joined rc cid]⟩ : ClientState) room.clients, room.createdAt⟩ st.rooms)
        st.pendingPolls (jset cid rc st.clientRooms)
        ⟨jset cid (⟨nameOrUser nameF, now, [Event.hello cid, Event.joined rc cid]⟩ : ClientState) room.clients, room.createdAt⟩
        hp (jget_jset_self rc _ st.rooms) (nodupKeys_jset _ hnd)]
  dsimp only
  rw [jset_jset_self]
  rw [jset_of_jget_none (⟨nameOrUser nameF, now, [Event.hello cid, Event.joined rc cid]⟩ : ClientState) hfresh]
  rw [show (room.clients ++ [(cid, (⟨nameOrUser nameF, now, [Event.hello cid, Event.joined rc cid]⟩ : ClientState))]).map (fun p => (p.1, p.2.name)) = clientProfile room ++ [(cid, nameOrUser nameF)] from by rw [List.map_append]; rfl]

theorem clientProfile_map_pushEv (ev : Event) (m : JMap ClientState) (ca : Nat) :
    clientProfile ⟨m.map (fun p => (p.1, pushEv ev p.2)), ca⟩ =
      m.map (fun p => (p.1, p.2.name)) := by
  unfold clientProfile
  dsimp only
  induction m with
  | nil => rfl
  | cons hd tl ih =>
    rw [List.map_cons, List.map_cons, List.map_cons, ih]
    rfl

theorem foldJoins_cons (now : Nat) (j : String × Option String)
    (rest : List (String × Option String)) (roomF : Option String) (st : ServerState) :
    foldJoins now (j :: rest) roomF st =
      foldJoins now rest roomF (apiJoin now j.1 j.2 roomF st).state := by
  unfold foldJoins
  rw [List.foldl_cons]

theorem foldJoins_profile (now : Nat) (rc : String) (roomF : Option String)
    (hrf : safeText roomF = rc) (hlen : rc.length = 5) (hfdc : fiveDigitCode rc = true) :
    ∀ (joins : List (String × Option String)) (st : ServerState) (room : Room),
      jget rc st.rooms = some room → st.pendingPolls = [] → nodupKeys room.clients →
      (jkeys room.clients ++ joins.map Prod.fst).Nodup →
      ∃ room2, jget rc (foldJoins now joins roomF st).rooms = some room2 ∧
        clientProfile room2 =
          clientProfile room ++ joins.map (fun p => (p.1, nameOrUser p.2)) := by
  intro joins
  induction joins with
  | nil =>
    intro st room hr hp hnd hfr
    exact ⟨room, hr, by simp⟩
  | cons j rest ih =>
    intro st room hr hp hnd hfr
    obtain ⟨cid, nameF⟩ := j
    have hfr1 : (jkeys room.clients ++ (cid :: rest.map Prod.fst)).Nodup := hfr
    have hdis := (List.nodup_append.mp hfr1).2.2
    have hcid : cid ∉ jkeys room.clients := by
      intro hin
      exact hdis hin (List.mem_cons_self cid (rest.map Prod.fst))
    have hfres : jget cid room.clients = none := jget_eq_none_iff.mpr hcid
    have hJ := apiJoin_ok now cid nameF roomF st rc room hrf hlen hfdc hr hfres hp hnd
    rw [foldJoins_cons, hJ]
    dsimp only
    have hkeys2 : jkeys ((room.clients ++ [(cid, (⟨nameOrUser nameF, now, [.hello cid, .joined rc cid]⟩ : ClientState))]).map
        (fun p => (p.1, pushEv (.presence rc (clientProfile room ++ [(cid, nameOrUser nameF)])
          (clientProfile room ++ [(cid, nameOrUser nameF)]).length) p.2))) =
        jkeys room.clients ++ [cid] := by
      rw [jkeys_map_snd, jkeys_append]
      rfl
    have hnd2 : nodupKeys ((room.clients ++ [(cid, (⟨nameOrUser nameF, now, [.hello cid, .joined rc cid]⟩ : ClientState))]).map
        (fun p => (p.1, pushEv (.presence rc (clientProfile room ++ [(cid, nameOrUser nameF)])
          (clientProfile room ++ [(cid, nameOrUser nameF)]).length) p.2))) := by
      unfold nodupKeys
      rw [hkeys2]
      refine List.Sublist.nodup ?_ hfr1
      refine List.Sublist.append_left ?_ (jkeys room.clients)
      exact (List.nil_sublist (rest.map Prod.fst)).cons₂ cid
    obtain ⟨room3, hr3, hprof3⟩ := ih
      ⟨jset rc ⟨(room.clients ++ [(cid, (⟨nameOrUser nameF, now, [.hello cid, .joined rc cid]⟩ : ClientState))]).map
          (fun p => (p.1, pushEv (.presence rc (clientProfile room ++ [(cid, nameOrUser nameF)])
            (clientProfile room ++ [(cid, nameOrUser nameF)]).length) p.2)),
        room.createdAt⟩ st.rooms,
       st.pendingPolls, jset cid rc st.clientRooms⟩
      ⟨(room.clients ++ [(cid, (⟨nameOrUser nameF, now, [.hello cid, .joined rc cid]⟩ : ClientState))]).map
          (fun p => (p.1, pushEv (.presence rc (clientProfile room ++ [(cid, nameOrUser nameF)])
            (clientProfile room ++ [(cid, nameOrUser nameF)]).length) p.2)),
        room.createdAt⟩
      (jget_jset_self rc _ st.rooms) hp hnd2
      (by rw [hkeys2, List.append_assoc]; exact hfr1)
    refine ⟨room3, hr3, ?_⟩
    rw [hprof3, clientProfile_map_pushEv, List.map_append, List.map_cons,
        List.append_assoc]
    rfl

/-! ### C8: presence snapshots -/

theorem join_profile_keys (joins : List (String × Option String)) :
    (joins.map (fun p => (p.1, nameOrUser p.2))).map Prod.fst = joins.map Prod.fst := by
  induction joins with
  | nil => rfl
  | cons j rest ih => rw [List.map_cons, List.map_cons, List.map_cons, ih]

/-- C8: with `N` member additions into room `rc` (the `joins` batch on top
of the room's existing members, all ids distinct), the snapshot lists
exactly those `N` ids with their names, without duplicates, in insertion
(join) order, and `count` equals `N`; moreover each single join's API
response carries the same `users`/`count` values as the `presence` event
it broadcasts to the existing members. -/
theorem presence_snapshot_after_joins (now : Nat) (rc : String) (roomF : Option String)
    (st : ServerState) (room : Room) (joins : List (String × Option String))
    (hrf : safeText roomF = rc) (hlen : rc.length = 5) (hfdc : fiveDigitCode rc = true)
    (hr : jget rc st.rooms = some room) (hp : st.pendingPolls = [])
    (hnd : nodupKeys room.clients)
    (hfr : (jkeys room.clients ++ joins.map Prod.fst).Nodup) :
    (roomSnapshot rc (foldJoins now joins roomF st).rooms =
      some ⟨rc, clientProfile room ++ joins.map (fun p => (p.1, nameOrUser p.2)),
            (clientProfile room ++ joins.map (fun p => (p.1, nameOrUser p.2))).length⟩) ∧
    ((clientProfile room ++ joins.map (fun p => (p.1, nameOrUser p.2))).map Prod.fst).Nodup ∧
    (∀ cid2 nameF2 st2 room2, jget rc st2.rooms = some room2 →
      jget cid2 room2.clients = none → st2.pendingPolls = [] → nodupKeys room2.clients →
      (apiJoin now cid2 nameF2 roomF st2).result =
        .okRoom cid2 rc (clientProfile room2 ++ [(cid2, nameOrUser nameF2)])
          (clientProfile room2 ++ [(cid2, nameOrUser nameF2)]).length ∧
      ∃ room3, jget rc (apiJoin now cid2 nameF2 roomF st2).state.rooms = some room3 ∧
        ∀ mid mc, jget mid room2.clients = some mc →
          jget mid room3.clients = some (pushEv (.presence rc
            (clientProfile room2 ++ [(cid2, nameOrUser nameF2)])
            (clientProfile room2 ++ [(cid2, nameOrUser nameF2)]).length) mc)) := by
  refine ⟨?_, ?_, ?_⟩
  · obtain ⟨room2, hr2, hprof⟩ :=
      foldJoins_profile now rc roomF hrf hlen hfdc joins st room hr hp hnd hfr
    unfold roomSnapshot
    rw [hr2]
    dsimp only
    have hcp : room2.clients.map (fun p => (p.1, p.2.name)) =
        clientProfile room ++ joins.map (fun p => (p.1, nameOrUser p.2)) := hprof
    rw [hcp]
  · rw [List.map_append, join_profile_keys]
    have hk : (clientProfile room).map Prod.fst = jkeys room.clients :=
      clientProfile_keys room
    rw [hk]
    exact hfr
  · intro cid2 nameF2 st2 room2 h1 h2 h3 h4
    have hJ := apiJoin_ok now cid2 nameF2 roomF st2 rc room2 hrf hlen hfdc h1 h2 h3 h4
    rw [hJ]
    refine ⟨rfl, _, jget_jset_self rc _ st2.rooms, ?_⟩
    intro mid mc hmid
    dsimp only
    rw [jget_map_snd, jget_append_left _ hmid]
    rfl

/-- Witness for C8: starting from the one-member room `12345` (Ann) and
joining Bo then a nameless client, the snapshot lists the three ids in
join order with count 3; a single join's response equals the broadcast
presence payload. -/
theorem presence_snapshot_after_joins_witness :
    roomSnapshot "12345"
        (foldJoins 50 [("c2", some "Bo"), ("c3", none)] (some "12345") stSolo).rooms =
      some ⟨"12345", [("c1", "Ann"), ("c2", "Bo"), ("c3", "User")], 3⟩ ∧
    (apiJoin 50 "c2" (some "Bo") (some "12345") stSolo).result =
      .okRoom "c2" "12345" [("c1", "Ann"), ("c2", "Bo")] 2 := by
  have h := presence_snapshot_after_joins 50 "12345" (some "12345") stSolo
    ⟨[("c1", ⟨"Ann", 100, []⟩)], 0⟩ [("c2", some "Bo"), ("c3", none)]
    (by decide) (by decide) (by decide) (by decide) rfl
    (by unfold nodupKeys; decide) (by decide)
  refine ⟨h.1.trans (by decide), ?_⟩
  have h3 := h.2.2 "c2" (some "Bo") stSolo ⟨[("c1", ⟨"Ann", 100, []⟩)], 0⟩
    (by decide) (by decide) rfl (by unfold nodupKeys; decide)
  exact h3.1.trans (by decide)

/-! ### C10: the default display name -/

/-- C10: when the `name` field is missing, not a string, or all-whitespace
(`safeText` yields the empty string), create and join still register the
session, storing the literal name `User`, which appears in the returned
snapshot users; and a send by a client stored as `User` broadcasts a `msg`
event with `fromName` `User`. -/
theorem default_name_user (rng : Nat → Nat) (now : Nat) (cid : String)
    (nameF roomF textF : Option String) (st : ServerState)
    (hn : safeText nameF = "") :
    nameOrUser nameF = "User" ∧
    (∀ code rooms1, createRoom rng now (safeText roomF) st.rooms = .ok (code, rooms1) →
      (apiCreate rng now cid nameF roomF st).result = .okRoom cid code [(cid, "User")] 1 ∧
      ∃ room2, jget code (apiCreate rng now cid nameF roomF st).state.rooms = some room2 ∧
        ∃ c2, jget cid room2.clients = some c2 ∧ c2.name = "User") ∧
    (∀ rc room, safeText roomF = rc → rc.length = 5 → fiveDigitCode rc = true →
      jget rc st.rooms = some room → jget cid room.clients = none →
      st.pendingPolls = [] → nodupKeys room.clients →
      (apiJoin now cid nameF roomF st).result =
        .okRoom cid rc (clientProfile room ++ [(cid, "User")])
          (clientProfile room ++ [(cid, "User")]).length ∧
      ∃ room2, jget rc (apiJoin now cid nameF roomF st).state.rooms = some room2 ∧
        ∃ c2, jget cid room2.clients = some c2 ∧ c2.name = "User") ∧
    (∀ id2 rc room c, jget id2 st.clientRooms = some rc → jget rc st.rooms = some room →
      jget id2 room.clients = some c → c.name = "User" → safeText textF ≠ "" →
      st.pendingPolls = [] → nodupKeys room.clients →
      ∃ room2, jget rc (apiSend now id2 textF st).state.rooms = some room2 ∧
        jget id2 room2.clients =
          some { c with events := c.events ++ [.msg rc id2 "User" (safeText textF) now] }) := by
  have hu : nameOrUser nameF = "User" := by
    unfold nameOrUser
    rw [if_pos hn]
  refine ⟨hu, ?_, ?_, ?_⟩
  · intro code rooms1 h
    rw [apiCreate_ok rng now cid nameF roomF st code rooms1 h]
    dsimp only
    rw [hu]
    refine ⟨rfl, _, jget_jset_self code _ st.rooms, ?_⟩
    exact ⟨⟨"User", now, [Event.hello cid, Event.created code cid,
            Event.presence code [(cid, "User")] 1]⟩,
           by rw [jget_cons, if_pos rfl], rfl⟩
  · intro rc room hrf hlen hfdc hr hfres hp hnd
    rw [apiJoin_ok now cid nameF roomF st rc room hrf hlen hfdc hr hfres hp hnd]
    dsimp only
    rw [hu]
    refine ⟨rfl, _, jget_jset_self rc _ st.rooms, ?_⟩
    dsimp only
    rw [jget_map_snd, jget_append_right _ hfres, jget_cons, if_pos rfl,
        Option.map_some']
    refine ⟨_, rfl, ?_⟩
    rfl
  · intro id2 rc room c hcr hr hc hcname ht hp hnd
    rw [apiSend_ok st now id2 rc room c textF hp hnd hcr hr hc ht]
    rw [hcname]
    dsimp only
    refine ⟨_, jget_jset_self rc _ st.rooms, ?_⟩
    rw [jget_map_snd, hc, Option.map_some', ← hcname]
    rfl

/-- Witness for C10: a whitespace name on create, a missing name on join,
and a send by the `User`-named member. -/
theorem default_name_user_witness :
    nameOrUser (some "  ") = "User" ∧
    (apiCreate rngId 3 "cX" (some "  ") none stTwo).result =
      .okRoom "cX" "01234" [("cX", "User")] 1 ∧
    (apiJoin 50 "c9" none (some "12345") stSolo).result =
      .okRoom "c9" "12345" [("c1", "Ann"), ("c9", "User")] 2 ∧
    ((jget "12345" (apiSend 9 "u1" (some "hey") stUser).state.rooms).bind
      (fun r => jget "u1" r.clients)) =
        some ⟨"User", 0, [Event.msg "12345" "u1" "User" "hey" 9]⟩ := by
  have hc := (default_name_user rngId 3 "cX" (some "  ") none none stTwo
    (by decide)).2.1 "01234" (jset "01234" ⟨[], 3⟩ stTwo.rooms) rfl
  have hj := (default_name_user rngId 50 "c9" none (some "12345") none stSolo
    (by decide)).2.2.1 "12345" ⟨[("c1", ⟨"Ann", 100, []⟩)], 0⟩
    (by decide) (by decide) (by decide) (by decide) (by decide) rfl
    (by unfold nodupKeys; decide)
  have hs := (default_name_user rngId 9 "zz" none none (some "hey") stUser
    rfl).2.2.2 "u1" "12345" ⟨[("u1", ⟨"User", 0, []⟩)], 0⟩ ⟨"User", 0, []⟩
    (by decide) (by decide) (by decide) rfl (by decide) rfl
    (by unfold nodupKeys; decide)
  refine ⟨(default_name_user rngId 0 "w" (some "  ") none none stTwo (by decide)).1,
          hc.1.trans (by decide), hj.1.trans (by decide), ?_⟩
  obtain ⟨room2, hr2, hc2⟩ := hs
  rw [hr2]
  show jget "u1" room2.clients = some ⟨"User", 0, [Event.msg "12345" "u1" "User" "hey" 9]⟩
  rw [hc2]
  decide

/-! ### The membership/name view, preserved by pushes and flushes -/

theorem jget_roomsProfile (r : String) (m : JMap Room) :
    jget r (roomsProfile m) = (jget r m).map clientProfile := by
  unfold roomsProfile
  exact jget_map_snd clientProfile r m

theorem nodup_of_profile_eq {m1 m2 : JMap Room}
    (h : roomsProfile m1 = roomsProfile m2) (hnd : nodupKeys m2) : nodupKeys m1 := by
  unfold nodupKeys
  have h1 : jkeys (roomsProfile m1) = jkeys (roomsProfile m2) := by rw [h]
  unfold roomsProfile at h1
  rw [jkeys_map_snd, jkeys_map_snd] at h1
  rw [h1]
  exact hnd

theorem clientProfile_jset_name {id : String} {m : JMap ClientState}
    {c c' : ClientState} (ca ca' : Nat) (h : jget id m = some c) (hn : c'.name = c.name) :
    clientProfile ⟨jset id c' m, ca⟩ = clientProfile ⟨m, ca'⟩ := by
  unfold clientProfile
  dsimp only
  exact jset_map_snd_congr c' (fun v => v.name) h hn

theorem roomsProfile_jset_room {rc : String} {m : JMap Room} {room room' : Room}
    (h : jget rc m = some room) (hp : clientProfile room' = clientProfile room) :
    roomsProfile (jset rc room' m) = roomsProfile m := by
  unfold roomsProfile
  exact jset_map_snd_congr room' clientProfile h hp

theorem pushToClient_view (rc id : String) (ev : Event) (st : ServerState) :
    roomsProfile (pushToClient rc id ev st).rooms = roomsProfile st.rooms ∧
    (pushToClient rc id ev st).clientRooms = st.clientRooms := by
  unfold pushToClient
  cases hr : jget rc st.rooms with
  | none => exact ⟨rfl, rfl⟩
  | some room =>
    dsimp only
    cases hc : jget id room.clients with
    | none => exact ⟨rfl, rfl⟩
    | some c =>
      dsimp only
      refine ⟨?_, rfl⟩
      refine roomsProfile_jset_room hr ?_
      exact clientProfile_jset_name room.createdAt room.createdAt hc rfl

theorem flushScan_key_mem (id : String) :
    ∀ (rooms : JMap Room) (rc : String) (room' : Room) (evs : List Event),
      flushScan id rooms = some (rc, room', evs) → rc ∈ jkeys rooms := by
  intro rooms
  induction rooms with
  | nil =>
    intro rc room' evs h
    exact absurd h (by simp [flushScan])
  | cons hd tl ih =>
    intro rc room' evs h
    obtain ⟨rc0, room0⟩ := hd
    unfold flushScan at h
    cases hcl : jget id room0.clients with
    | some c =>
      rw [hcl] at h
      dsimp only at h
      by_cases hne : c.events ≠ []
      · rw [if_pos hne] at h
        simp at h
        obtain ⟨h1, -, -⟩ := h
        rw [jkeys_cons, ← h1]
        exact List.mem_cons_self rc0 (jkeys tl)
      · rw [if_neg hne] at h
        rw [jkeys_cons]
        exact List.mem_cons_of_mem _ (ih rc room' evs h)
    | none =>
      rw [hcl] at h
      rw [jkeys_cons]
      exact List.mem_cons_of_mem _ (ih rc room' evs h)

theorem flushScan_profile (id : String) :
    ∀ (rooms : JMap Room) (rc : String) (room' : Room) (evs : List Event),
      nodupKeys rooms → flushScan id rooms = some (rc, room', evs) →
      roomsProfile (jset rc room' rooms) = roomsProfile rooms := by
  intro rooms
  induction rooms with
  | nil =>
    intro rc room' evs _ h
    exact absurd h (by simp [flushScan])
  | cons hd tl ih =>
    intro rc room' evs hnd h
    obtain ⟨rc0, room0⟩ := hd
    obtain ⟨hk, hnd1⟩ := nodupKeys_cons_iff.mp hnd
    unfold flushScan at h
    cases hcl : jget id room0.clients with
    | some c =>
      rw [hcl] at h
      dsimp only at h
      by_cases hne : c.events ≠ []
      · rw [if_pos hne] at h
        simp at h
        obtain ⟨h1, h2, h3⟩ := h
        subst h1
        rw [jset_cons, if_pos rfl]
        unfold roomsProfile
        rw [List.map_cons, List.map_cons]
        have hpr : clientProfile room' = clientProfile room0 := by
          rw [← h2]
          exact clientProfile_jset_name room0.createdAt room0.createdAt hcl rfl
        rw [hpr]
      · rw [if_neg hne] at h
        have hmem := flushScan_key_mem id tl rc room' evs h
        have hrc0 : rc0 ≠ rc := fun he => hk (he ▸ hmem)
        rw [jset_cons, if_neg hrc0]
        unfold roomsProfile
        rw [List.map_cons, List.map_cons]
        have := ih rc room' evs hnd1 h
        unfold roomsProfile at this
        rw [this]
    | none =>
      rw [hcl] at h
      have hmem := flushScan_key_mem id tl rc room' evs h
      have hrc0 : rc0 ≠ rc := fun he => hk (he ▸ hmem)
      rw [jset_cons, if_neg hrc0]
      unfold roomsProfile
      rw [List.map_cons, List.map_cons]
      have := ih rc room' evs hnd1 h
      unfold roomsProfile at this
      rw [this]

theorem flushClient_view (id : String) (st : ServerState) (hnd : nodupKeys st.rooms) :
    roomsProfile (flushClient id st).2.rooms = roomsProfile st.rooms ∧
    (flushClient id st).2.clientRooms = st.clientRooms := by
  unfold flushClient
  cases hp : jget id st.pendingPolls with
  | none => exact ⟨rfl, rfl⟩
  | some tok =>
    dsimp only
    cases hs : flushScan id st.rooms with
    | none => exact ⟨rfl, rfl⟩
    | some trip =>
      obtain ⟨rc, room', evs⟩ := trip
      dsimp only
      exact ⟨flushScan_profile id st.rooms rc room' evs hnd hs, rfl⟩

theorem broadcastLoop_view (rc : String) (ev : Event) :
    ∀ (ids : List String) (st : ServerState), nodupKeys st.rooms →
      roomsProfile (broadcastLoop rc ev ids st).2.rooms = roomsProfile st.rooms ∧
      (broadcastLoop rc ev ids st).2.clientRooms = st.clientRooms := by
  intro ids
  induction ids with
  | nil => intro st _; exact ⟨rfl, rfl⟩
  | cons id rest ih =>
    intro st hnd
    have hpv := pushToClient_view rc id ev st
    have hnd1 : nodupKeys (pushToClient rc id ev st).rooms :=
      nodup_of_profile_eq hpv.1 hnd
    have hfv := flushClient_view id (pushToClient rc id ev st) hnd1
    have hnd2 : nodupKeys ((flushClient id (pushToClient rc id ev st)).2).rooms :=
      nodup_of_profile_eq hfv.1 hnd1
    have hiv := ih ((flushClient id (pushToClient rc id ev st)).2) hnd2
    constructor
    · show roomsProfile
        (broadcastLoop rc ev rest ((flushClient id (pushToClient rc id ev st)).2)).2.rooms = _
      rw [hiv.1, hfv.1, hpv.1]
    · show (broadcastLoop rc ev rest ((flushClient id (pushToClient rc id ev st)).2)).2.clientRooms = _
      rw [hiv.2, hfv.2, hpv.2]

theorem broadcast_view (rc : String) (ev : Event) (st : ServerState)
    (hnd : nodupKeys st.rooms) :
    roomsProfile (broadcast rc ev st).2.rooms = roomsProfile st.rooms ∧
    (broadcast rc ev st).2.clientRooms = st.clientRooms := by
  unfold broadcast
  cases hr : jget rc st.rooms with
  | none => exact ⟨rfl, rfl⟩
  | some room =>
    dsimp only
    exact broadcastLoop_view rc ev (jkeys room.clients) st hnd

/-! ### Transporting the session invariant -/

theorem member_isSome_of_profile_eq {ra rb : Room}
    (h : clientProfile ra = clientProfile rb) (c : String) :
    (jget c ra.clients).isSome = (jget c rb.clients).isSome := by
  have hk : jkeys ra.clients = jkeys rb.clients := by
    rw [← clientProfile_keys, h, clientProfile_keys]
  cases e1 : jget c ra.clients with
  | none =>
    cases e2 : jget c rb.clients with
    | none => rfl
    | some v =>
      exfalso
      have h2 := jget_eq_none_iff.mp e1
      rw [hk] at h2
      exact h2 (mem_jkeys_of_mem (mem_of_jget e2))
  | some v =>
    cases e2 : jget c rb.clients with
    | some w => rfl
    | none =>
      exfalso
      have h2 := jget_eq_none_iff.mp e2
      rw [← hk] at h2
      exact h2 (mem_jkeys_of_mem (mem_of_jget e1))

theorem sessionInvP_of_view {st st' : ServerState}
    (hpr : roomsProfile st'.rooms = roomsProfile st.rooms)
    (hcr : st'.clientRooms = st.clientRooms)
    (hinv : sessionInvP st) : sessionInvP st' := by
  obtain ⟨h1, h2⟩ := hinv
  constructor
  · intro p hp
    rw [hcr] at hp
    have ha := h1 p hp
    have hb : jget p.2 (roomsProfile st'.rooms) = jget p.2 (roomsProfile st.rooms) := by
      rw [hpr]
    rw [jget_roomsProfile, jget_roomsProfile] at hb
    cases e1 : jget p.2 st'.rooms with
    | none =>
      cases e2 : jget p.2 st.rooms with
      | none =>
        rw [e2] at ha
        simp at ha
      | some r2 =>
        rw [e1, e2] at hb
        simp at hb
    | some r1 =>
      cases e2 : jget p.2 st.rooms with
      | none =>
        rw [e1, e2] at hb
        simp at hb
      | some r2 =>
        rw [e1, e2] at hb
        simp at hb
        rw [e2] at ha
        have ha2 : (jget p.1 r2.clients).isSome = true := ha
        show (jget p.1 r1.clients).isSome = true
        rw [member_isSome_of_profile_eq hb p.1]
        exact ha2
  · intro q hq p hp
    have hq1 : (q.1, clientProfile q.2) ∈ roomsProfile st'.rooms :=
      List.mem_map_of_mem (fun r => (r.1, clientProfile r.2)) hq
    rw [hpr] at hq1
    obtain ⟨q0, hq0, heq⟩ := List.mem_map.mp hq1
    simp only [Prod.mk.injEq] at heq
    obtain ⟨heq1, heq2⟩ := heq
    have hp1 : (p.1, p.2.name) ∈ clientProfile q.2 :=
      List.mem_map_of_mem (fun v => (v.1, v.2.name)) hp
    rw [← heq2] at hp1
    obtain ⟨p0, hp0, hpeq⟩ := List.mem_map.mp hp1
    simp only [Prod.mk.injEq] at hpeq
    obtain ⟨hpeq1, -⟩ := hpeq
    have hmain := h2 q0 hq0 p0 hp0
    rw [hcr, ← hpeq1, hmain, heq1]

theorem jdel_eq_nil {α : Type} {k : String} {m : JMap α} (h : jdel k m = []) :
    m = [] ∨ ∃ v, m = [(k, v)] := by
  cases m with
  | nil => exact Or.inl rfl
  | cons hd tl =>
    rw [jdel_cons] at h
    by_cases h1 : hd.1 = k
    · rw [if_pos h1] at h
      subst h
      right
      refine ⟨hd.2, ?_⟩
      rw [← h1]
    · rw [if_neg h1] at h
      exact absurd h (by simp)

theorem mem_jset_cases_nodup {α : Type} {k : String} {v : α} {p : String × α}
    {m : JMap α} (hnd : nodupKeys m) (h : p ∈ jset k v m) :
    p = (k, v) ∨ (p ∈ m ∧ p.1 ≠ k) := by
  by_cases hpk : p.1 = k
  · left
    have h1 := jget_of_mem_nodup (nodupKeys_jset v hnd) h
    rw [hpk, jget_jset_self] at h1
    have h2 : v = p.2 := Option.some.inj h1
    rcases p with ⟨a, b⟩
    simp at hpk h2 ⊢
    exact ⟨hpk, h2.symm⟩
  · right
    exact ⟨mem_jset_of_ne h hpk, hpk⟩

/-! ### Structural invariant preservation for each state change -/

theorem sessionInv_create_state (st : ServerState) (cid code : String)
    (c0 : ClientState) (ca : Nat) (P : JMap Nat)
    (hinv : sessionInvP st) (hfree : jget code st.rooms = none)
    (hcid : jget cid st.clientRooms = none) :
    sessionInvP ⟨jset code ⟨[(cid, c0)], ca⟩ st.rooms, P, jset cid code st.clientRooms⟩ := by
  have hR : jset code (⟨[(cid, c0)], ca⟩ : Room) st.rooms =
      st.rooms ++ [(code, ⟨[(cid, c0)], ca⟩)] := jset_of_jget_none _ hfree
  have hC : jset cid code st.clientRooms = st.clientRooms ++ [(cid, code)] :=
    jset_of_jget_none _ hcid
  unfold sessionInvP
  dsimp only
  rw [hR, hC]
  constructor
  · intro p hp
    rcases List.mem_append.mp hp with hp1 | hp1
    · have ha := hinv.1 p hp1
      cases e2 : jget p.2 st.rooms with
      | none =>
        rw [e2] at ha
        simp at ha
      | some r =>
        rw [e2] at ha
        rw [jget_append_left _ e2]
        exact ha
    · have hp2 : p = (cid, code) := by simpa using hp1
      subst hp2
      rw [jget_append_right _ hfree]
      rw [jget_cons, if_pos rfl]
      show (jget cid [(cid, c0)]).isSome = true
      rw [jget_cons, if_pos rfl]
      rfl
  · intro q hq p hp
    rcases List.mem_append.mp hq with hq1 | hq1
    · have hb := hinv.2 q hq1 p hp
      exact jget_append_left _ hb
    · have hq2 : q = (code, ⟨[(cid, c0)], ca⟩) := by simpa using hq1
      subst hq2
      have hp2 : p = (cid, c0) := by simpa using hp
      subst hp2
      rw [jget_append_right _ hcid, jget_cons, if_pos rfl]

theorem sessionInv_join_state (st : ServerState) (cid rc : String) (room : Room)
    (c0 : ClientState) (P : JMap Nat)
    (hndR : nodupKeys st.rooms) (hinv : sessionInvP st)
    (hr : jget rc st.rooms = some room)
    (hcid : jget cid st.clientRooms = none) :
    sessionInvP ⟨jset rc ⟨jset cid c0 room.clients, room.createdAt⟩ st.rooms, P,
                 jset cid rc st.clientRooms⟩ := by
  have hfresh : jget cid room.clients = none := by
    cases hcm : jget cid room.clients with
    | none => rfl
    | some c =>
      exfalso
      have := hinv.2 (rc, room) (mem_of_jget hr) (cid, c) (mem_of_jget hcm)
      rw [hcid] at this
      exact Option.noConfusion this
  have hM : jset cid c0 room.clients = room.clients ++ [(cid, c0)] :=
    jset_of_jget_none _ hfresh
  have hC : jset cid rc st.clientRooms = st.clientRooms ++ [(cid, rc)] :=
    jset_of_jget_none _ hcid
  unfold sessionInvP
  dsimp only
  rw [hM, hC]
  constructor
  · intro p hp
    rcases List.mem_append.mp hp with hp1 | hp1
    · have ha := hinv.1 p hp1
      cases e2 : jget p.2 st.rooms with
      | none =>
        rw [e2] at ha
        simp at ha
      | some r =>
        rw [e2] at ha
        by_cases hprc : p.2 = rc
        · rw [hprc, jget_jset_self]
          have hrr : r = room := by
            rw [hprc] at e2
            exact Option.some.inj (e2.symm.trans hr)
          have ha2 : (jget p.1 r.clients).isSome = true := ha
          rw [hrr] at ha2
          show (jget p.1 (room.clients ++ [(cid, c0)])).isSome = true
          cases e3 : jget p.1 room.clients with
          | none =>
            rw [e3] at ha2
            simp at ha2
          | some v =>
            rw [jget_append_left _ e3]
            rfl
        · rw [jget_jset_ne _ _ (fun he => hprc he.symm), e2]
          exact ha
    · have hp2 : p = (cid, rc) := by simpa using hp1
      subst hp2
      rw [jget_jset_self]
      show (jget cid (room.clients ++ [(cid, c0)])).isSome = true
      rw [jget_append_right _ hfresh, jget_cons, if_pos rfl]
      rfl
  · intro q hq p hp
    rcases mem_jset_cases_nodup hndR hq with hq1 | ⟨hq1, hqne⟩
    · subst hq1
      dsimp only at hp ⊢
      rcases List.mem_append.mp hp with hp1 | hp1
      · have hb := hinv.2 (rc, room) (mem_of_jget hr) p hp1
        have hpne : p.1 ≠ cid := by
          intro he
          rw [he, hcid] at hb
          exact Option.noConfusion hb
        exact jget_append_left _ hb
      · have hp2 : p = (cid, c0) := by simpa using hp1
        subst hp2
        rw [jget_append_right _ hcid, jget_cons, if_pos rfl]
    · have hb := hinv.2 q hq1 p hp
      exact jget_append_left _ hb

theorem sessionInv_leave_nonempty (st : ServerState) (id rc : String) (room : Room)
    (P : JMap Nat) (hwf : wfState st) (hinv : sessionInvP st)
    (hcr : jget id st.clientRooms = some rc) (hr : jget rc st.rooms = some room) :
    sessionInvP ⟨jset rc ⟨jdel id room.clients, room.createdAt⟩ st.rooms, P,
                 jdel id st.clientRooms⟩ := by
  obtain ⟨hndR, hndC, -, hndM⟩ := hwf
  have hndRoom : nodupKeys room.clients := hndM (rc, room) (mem_of_jget hr)
  unfold sessionInvP
  dsimp only
  constructor
  · intro p hp
    have hp1 : p ∈ st.clientRooms := mem_of_mem_jdel hp
    have hpne : p.1 ≠ id := key_ne_of_mem_jdel hndC hp
    have ha := hinv.1 p hp1
    cases e2 : jget p.2 st.rooms with
    | none =>
      rw [e2] at ha
      simp at ha
    | some r =>
      rw [e2] at ha
      by_cases hprc : p.2 = rc
      · rw [hprc, jget_jset_self]
        have hrr : r = room := by
          rw [hprc] at e2
          exact Option.some.inj (e2.symm.trans hr)
        have ha2 : (jget p.1 r.clients).isSome = true := ha
        rw [hrr] at ha2
        show (jget p.1 (jdel id room.clients)).isSome = true
        rw [jget_jdel_ne _ (fun he => hpne he.symm)]
        exact ha2
      · rw [jget_jset_ne _ _ (fun he => hprc he.symm), e2]
        exact ha
  · intro q hq p hp
    rcases mem_jset_cases_nodup hndR hq with hq1 | ⟨hq1, hqne⟩
    · subst hq1
      dsimp only at hp ⊢
      have hp1 : p ∈ room.clients := mem_of_mem_jdel hp
      have hpne : p.1 ≠ id := key_ne_of_mem_jdel hndRoom hp
      have hb := hinv.2 (rc, room) (mem_of_jget hr) p hp1
      rw [jget_jdel_ne _ (fun he => hpne he.symm)]
      exact hb
    · have hb := hinv.2 q hq1 p hp
      have hpne : p.1 ≠ id := by
        intro he
        rw [he, hcr] at hb
        exact hqne (Option.some.inj hb).symm
      rw [jget_jdel_ne _ (fun he => hpne he.symm)]
      exact hb

theorem sessionInv_leave_empty (st : ServerState) (id rc : String) (room : Room)
    (P : JMap Nat) (hwf : wfState st) (hinv : sessionInvP st)
    (hcr : jget id st.clientRooms = some rc) (hr : jget rc st.rooms = some room)
    (hemp : jdel id room.clients = []) :
    sessionInvP ⟨jdel rc (jset rc ⟨jdel id room.clients, room.createdAt⟩ st.rooms), P,
                 jdel id st.clientRooms⟩ := by
  obtain ⟨hndR, hndC, -, hndM⟩ := hwf
  rw [jdel_jset_self]
  unfold sessionInvP
  dsimp only
  constructor
  · intro p hp
    have hp1 : p ∈ st.clientRooms := mem_of_mem_jdel hp
    have hpne : p.1 ≠ id := key_ne_of_mem_jdel hndC hp
    have ha := hinv.1 p hp1
    cases e2 : jget p.2 st.rooms with
    | none =>
      rw [e2] at ha
      simp at ha
    | some r =>
      rw [e2] at ha
      have hprc : p.2 ≠ rc := by
        intro he
        rw [he] at e2
        have hrr : r = room := Option.some.inj (e2.symm.trans hr)
        have ha2 : (jget p.1 r.clients).isSome = true := ha
        rw [hrr] at ha2
        rcases jdel_eq_nil hemp with hnil | ⟨v, hv⟩
        · rw [hnil] at ha2
          simp [jget] at ha2
        · rw [hv, jget_cons] at ha2
          dsimp only at ha2
          by_cases hid : id = p.1
          · exact hpne hid.symm
          · rw [if_neg hid] at ha2
            simp [jget] at ha2
      rw [jget_jdel_ne _ (fun he => hprc he.symm), e2]
      exact ha
  · intro q hq p hp
    have hq1 : q ∈ st.rooms := mem_of_mem_jdel hq
    have hqne : q.1 ≠ rc := key_ne_of_mem_jdel hndR hq
    have hb := hinv.2 q hq1 p hp
    have hpne : p.1 ≠ id := by
      intro he
      rw [he, hcr] at hb
      exact hqne (Option.some.inj hb).symm
    rw [jget_jdel_ne _ (fun he => hpne he.symm)]
    exact hb

theorem sessionInv_poll_state (st : ServerState) (id rc : String) (room : Room)
    (c c' : ClientState) (P : JMap Nat)
    (hinv : sessionInvP st) (hr : jget rc st.rooms = some room)
    (hc : jget id room.clients = some c) (hname : c'.name = c.name) :
    sessionInvP ⟨jset rc ⟨jset id c' room.clients, room.createdAt⟩ st.rooms, P,
                 st.clientRooms⟩ := by
  refine sessionInvP_of_view ?_
    (show (⟨jset rc ⟨jset id c' room.clients, room.createdAt⟩ st.rooms, P,
        st.clientRooms⟩ : ServerState).clientRooms = st.clientRooms from rfl) hinv
  show roomsProfile (jset rc ⟨jset id c' room.clients, room.createdAt⟩ st.rooms) =
    roomsProfile st.rooms
  refine roomsProfile_jset_room hr ?_
  exact clientProfile_jset_name room.createdAt room.createdAt hc hname

/-! ### Where each handler's state comes from -/

theorem apiSend_state_cases (now : Nat) (id : String) (textF : Option String)
    (st : ServerState) :
    (apiSend now id textF st).state = st ∨
    ∃ rc ev, (apiSend now id textF st).state = (broadcast rc ev st).2 := by
  unfold apiSend
  dsimp only
  by_cases ht : safeText textF = ""
  · rw [if_pos ht]
    exact Or.inl rfl
  · rw [if_neg ht]
    cases hcr : jget id st.clientRooms with
    | none => exact Or.inl rfl
    | some rc =>
      dsimp only
      cases hr : jget rc st.rooms with
      | none => exact Or.inl rfl
      | some room =>
        dsimp only
        cases hc : jget id room.clients with
        | none => exact Or.inl rfl
        | some c =>
          dsimp only
          exact Or.inr ⟨rc, .msg rc id c.name (safeText textF) now, rfl⟩

theorem apiPoll_state_cases (now tok : Nat) (id : String) (st : ServerState) :
    (apiPoll now tok id st).state = st ∨
    ∃ rc room c c' P, jget rc st.rooms = some room ∧ jget id room.clients = some c ∧
      c'.name = c.name ∧
      (apiPoll now tok id st).state =
        ⟨jset rc ⟨jset id c' room.clients, room.createdAt⟩ st.rooms, P, st.clientRooms⟩ := by
  unfold apiPoll
  cases hcr : jget id st.clientRooms with
  | none => exact Or.inl rfl
  | some rc =>
    dsimp only
    cases hr : jget rc st.rooms with
    | none => exact Or.inl rfl
    | some room =>
      dsimp only
      cases hc : jget id room.clients with
      | none => exact Or.inl rfl
      | some c =>
        dsimp only
        by_cases hne : c.events ≠ []
        · rw [if_pos hne]
          exact Or.inr ⟨rc, room, c, { c with lastSeen := now, events := [] },
            st.pendingPolls, hr, hc, rfl, rfl⟩
        · rw [if_neg hne]
          refine Or.inr ⟨rc, room, c, { c with lastSeen := now },
            jset id tok st.pendingPolls, hr, hc, rfl, rfl⟩

theorem apiJoin_state_cases (now : Nat) (cid : String) (nameF roomF : Option String)
    (st : ServerState) :
    (apiJoin now cid nameF roomF st).state = st ∨
    ∃ rc room ev, jget rc st.rooms = some room ∧
      (apiJoin now cid nameF roomF st).state =
        (broadcast rc ev
          ⟨jset rc ⟨jset cid ⟨nameOrUser nameF, now, [.hello cid, .joined rc cid]⟩ room.clients,
            room.createdAt⟩ st.rooms,
           st.pendingPolls, jset cid rc st.clientRooms⟩).2 := by
  unfold apiJoin
  dsimp only
  by_cases hg : safeText roomF = "" ∨ (safeText roomF).length ≠ 5 ∨
      fiveDigitCode (safeText roomF) = false
  · rw [if_pos hg]
    exact Or.inl rfl
  · rw [if_neg hg]
    cases hr : jget (safeText roomF) st.rooms with
    | none => exact Or.inl rfl
    | some room =>
      dsimp only
      right
      refine ⟨safeText roomF, room,
        .presence (safeText roomF)
          ((jset cid (⟨nameOrUser nameF, now, [.hello cid, .joined (safeText roomF) cid]⟩ : ClientState) room.clients).map (fun p => (p.1, p.2.name)))
          (((jset cid (⟨nameOrUser nameF, now, [.hello cid, .joined (safeText roomF) cid]⟩ : ClientState) room.clients).map (fun p => (p.1, p.2.name))).length),
        hr, ?_⟩
      simp only [pushToClient, jget_jset_self, jset_jset_self, roomSnapshot,
                 List.nil_append, List.cons_append, List.append_nil]

theorem apiLeave_state_cases (id : String) (st : ServerState) :
    (apiLeave id st).state = st ∨
    ∃ rc room, jget id st.clientRooms = some rc ∧ jget rc st.rooms = some room ∧
      ((jdel id room.clients = [] ∧
        (apiLeave id st).state =
          ⟨jdel rc (jset rc ⟨jdel id room.clients, room.createdAt⟩ st.rooms),
           jdel id st.pendingPolls, jdel id st.clientRooms⟩) ∨
       (∃ ev, (apiLeave id st).state =
          (broadcast rc ev ⟨jset rc ⟨jdel id room.clients, room.createdAt⟩ st.rooms,
            jdel id st.pendingPolls, jdel id st.clientRooms⟩).2)) := by
  unfold apiLeave
  cases hcr : jget id st.clientRooms with
  | none => exact Or.inl rfl
  | some rc =>
    dsimp only
    cases hr : jget rc st.rooms with
    | none => exact Or.inl rfl
    | some room =>
      dsimp only
      by_cases hemp : (jdel id room.clients).isEmpty = true
      · rw [if_pos hemp]
        exact Or.inr ⟨rc, room, rfl, hr,
          Or.inl ⟨List.isEmpty_iff.mp hemp, rfl⟩⟩
      · rw [if_neg hemp]
        have hsnap : roomSnapshot rc
            (jset rc (⟨jdel id room.clients, room.createdAt⟩ : Room) st.rooms) =
            some ⟨rc, (jdel id room.clients).map (fun p => (p.1, p.2.name)),
                  ((jdel id room.clients).map (fun p => (p.1, p.2.name))).length⟩ := by
          unfold roomSnapshot
          rw [jget_jset_self]
        rw [hsnap]
        dsimp only
        exact Or.inr ⟨rc, room, rfl, hr, Or.inr ⟨_, rfl⟩⟩

/-! ### C7: session exclusivity -/

/-- C7 counterexample: the reaper sweep breaks the session-exclusivity
invariant: starting from a valid state where stale `c1` and fresh `c2`
share room `12345`, the sweep evicts `c1` from the room but leaves its
session-table entry behind, pointing at a room whose member set no longer
contains it. -/
theorem session_inv_broken_by_cleanup :
    sessionInvP stStale ∧ ¬ sessionInvP (cleanup 100000 stStale).2 := by
  constructor
  · unfold sessionInvP
    decide
  · intro h
    have h1 := h.1 ("c1", "12345") (by decide)
    exact absurd h1 (by decide)

/-- C7 (amended): the session-exclusivity invariant — every session-table
entry points at an existing room whose member set contains the client, and
every room member's table entry maps back to that room — is preserved by
create, join, leave, send and poll (with the injected client ids fresh),
but not by the reaper sweep, which deletes evicted members from their room
without deleting their session-table entries. -/
theorem session_inv_preserved (st : ServerState) (hwf : wfState st)
    (hinv : sessionInvP st) :
    (∀ rng now cid nameF roomF, jget cid st.clientRooms = none →
      sessionInvP (apiCreate rng now cid nameF roomF st).state) ∧
    (∀ now cid nameF roomF, jget cid st.clientRooms = none →
      sessionInvP (apiJoin now cid nameF roomF st).state) ∧
    (∀ id, sessionInvP (apiLeave id st).state) ∧
    (∀ now id textF, sessionInvP (apiSend now id textF st).state) ∧
    (∀ now tok id, sessionInvP (apiPoll now tok id st).state) := by
  have hndR : nodupKeys st.rooms := hwf.1
  refine ⟨?_, ?_, ?_, ?_, ?_⟩
  · intro rng now cid nameF roomF hcid
    cases hcrt : createRoom rng now (safeText roomF) st.rooms with
    | error e =>
      rw [apiCreate_fail rng now cid nameF roomF st e hcrt]
      exact hinv
    | ok pr =>
      obtain ⟨code, roomsA⟩ := pr
      rw [apiCreate_ok rng now cid nameF roomF st code roomsA hcrt]
      obtain ⟨-, hfree, -⟩ := createRoom_ok hcrt
      exact sessionInv_create_state st cid code _ now st.pendingPolls hinv hfree hcid
  · intro now cid nameF roomF hcid
    rcases apiJoin_state_cases now cid nameF roomF st with h | ⟨rc, room, ev, hr, hst⟩
    · rw [h]
      exact hinv
    · rw [hst]
      have hmid := sessionInv_join_state st cid rc room
        ⟨nameOrUser nameF, now, [.hello cid, .joined rc cid]⟩ st.pendingPolls
        hndR hinv hr hcid
      have hndMid : nodupKeys (⟨jset rc ⟨jset cid ⟨nameOrUser nameF, now,
          [.hello cid, .joined rc cid]⟩ room.clients, room.createdAt⟩ st.rooms,
          st.pendingPolls, jset cid rc st.clientRooms⟩ : ServerState).rooms := by
        show nodupKeys (jset rc _ st.rooms)
        exact nodupKeys_jset _ hndR
      have hv := broadcast_view rc ev _ hndMid
      exact sessionInvP_of_view hv.1 hv.2 hmid
  · intro id
    rcases apiLeave_state_cases id st with h | ⟨rc, room, hcr, hr, hcase⟩
    · rw [h]
      exact hinv
    · rcases hcase with ⟨hemp, hst⟩ | ⟨ev, hst⟩
      · rw [hst]
        exact sessionInv_leave_empty st id rc room (jdel id st.pendingPolls)
          hwf hinv hcr hr hemp
      · rw [hst]
        have hmid := sessionInv_leave_nonempty st id rc room
          (jdel id st.pendingPolls) hwf hinv hcr hr
        have hndMid : nodupKeys (⟨jset rc ⟨jdel id room.clients, room.createdAt⟩ st.rooms,
            jdel id st.pendingPolls, jdel id st.clientRooms⟩ : ServerState).rooms := by
          show nodupKeys (jset rc _ st.rooms)
          exact nodupKeys_jset _ hndR
        have hv := broadcast_view rc ev _ hndMid
        exact sessionInvP_of_view hv.1 hv.2 hmid
  · intro now id textF
    rcases apiSend_state_cases now id textF st with h | ⟨rc, ev, hst⟩
    · rw [h]
      exact hinv
    · rw [hst]
      have hv := broadcast_view rc ev st hndR
      exact sessionInvP_of_view hv.1 hv.2 hinv
  · intro now tok id
    rcases apiPoll_state_cases now tok id st with h | ⟨rc, room, c, c2, P, hr, hc, hn, hst⟩
    · rw [h]
      exact hinv
    · rw [hst]
      exact sessionInv_poll_state st id rc room c c2 P hinv hr hc hn

/-- Witness for C7's amended theorem: all five operations applied to the
concrete two-member state keep the invariant. -/
theorem session_inv_preserved_witness :
    sessionInvP (apiCreate rngId 1 "cX" none none stTwo).state ∧
    sessionInvP (apiJoin 2 "c9" none (some "12345") stTwo).state ∧
    sessionInvP (apiLeave "c1" stTwo).state ∧
    sessionInvP (apiSend 3 "c2" (some "hi") stTwo).state ∧
    sessionInvP (apiPoll 4 7 "c2" stTwo).state := by
  have h := session_inv_preserved stTwo
    (by unfold wfState nodupKeys; decide)
    (by unfold sessionInvP; decide)
  exact ⟨h.1 rngId 1 "cX" none none (by decide),
         h.2.1 2 "c9" none (some "12345") (by decide),
         h.2.2.1 "c1",
         h.2.2.2.1 3 "c2" (some "hi"),
         h.2.2.2.2 4 7 "c2"⟩
